import Mathlib

/-!
Shallow embedding of the FastCDC 2020 chunker (`fastcdc.go` of
buildbuddy-io/fastcdc2020) in Lean 4.

Conventions of the embedding:
* Go `uint64` values are `Nat` with an explicit reduction `w64 x = x % 2 ^ 64`
  applied at every operation that can overflow 64 bits.
* Go `int` option fields are `Int` (they are validated before use; sizes that
  survive validation are positive and are carried as `Nat` in the chunker).
* Byte slices are `List Nat` (each entry a byte value).
* The `io.Reader` is a list of read events: each `Read` call either delivers a
  batch of bytes (`ReadEvent.give`, possibly fewer than requested) or fails
  with an error code (`ReadEvent.fail`); an exhausted list answers end-of-file
  forever, matching a reader that keeps returning `io.EOF`.
-/

/-- Reduction modulo 2^64, the semantics of Go `uint64` arithmetic. -/
def w64 (x : Nat) : Nat := x % 2 ^ 64

def gearTable : List Nat := [
  0x3b5d3c7d207e37dc, 0x784d68ba91123086, 0xcd52880f882e7298, 0xeacf8e4e19fdcca7,
  0xc31f385dfbd1632b, 0x1d5f27001e25abe6, 0x83130bde3c9ad991, 0xc4b225676e9b7649,
  0xaa329b29e08eb499, 0xb67fcbd21e577d58, 0x0027baaada2acf6b, 0xe3ef2d5ac73c2226,
  0x0890f24d6ed312b7, 0xa809e036851d7c7e, 0xf0a6fe5e0013d81b, 0x1d026304452cec14,
  0x03864632648e248f, 0xcdaacf3dcd92b9b4, 0xf5e012e63c187856, 0x8862f9d3821c00b6,
  0xa82f7338750f6f8a, 0x1e583dc6c1cb0b6f, 0x7a3145b69743a7f1, 0xabb20fee404807eb,
  0xb14b3cfe07b83a5d, 0xb9dc27898adb9a0f, 0x3703f5e91baa62be, 0xcf0bb866815f7d98,
  0x3d9867c41ea9dcd3, 0x1be1fa65442bf22c, 0x14300da4c55631d9, 0xe698e9cbc6545c99,
  0x4763107ec64e92a5, 0xc65821fc65696a24, 0x76196c064822f0b7, 0x485be841f3525e01,
  0xf652bc9c85974ff5, 0xcad8352face9e3e9, 0x2a6ed1dceb35e98e, 0xc6f483badc11680f,
  0x3cfd8c17e9cf12f1, 0x89b83c5e2ea56471, 0xae665cfd24e392a9, 0xec33c4e504cb8915,
  0x3fb9b15fc9fe7451, 0xd7fd1fd1945f2195, 0x31ade0853443efd8, 0x255efc9863e1e2d2,
  0x10eab6008d5642cf, 0x46f04863257ac804, 0xa52dc42a789a27d3, 0xdaaadf9ce77af565,
  0x6b479cd53d87febb, 0x6309e2d3f93db72f, 0xc5738ffbaa1ff9d6, 0x6bd57f3f25af7968,
  0x67605486d90d0a4a, 0xe14d0b9663bfbdae, 0xb7bbd8d816eb0414, 0xdef8a4f16b35a116,
  0xe7932d85aaaffed6, 0x08161cbae90cfd48, 0x855507beb294f08b, 0x91234ea6ffd399b2,
  0xad70cf4b2435f302, 0xd289a97565bc2d27, 0x8e558437ffca99de, 0x96d2704b7115c040,
  0x0889bbcdfc660e41, 0x5e0d4e67dc92128d, 0x72a9f8917063ed97, 0x438b69d409e016e3,
  0xdf4fed8a5d8a4397, 0x00f41dcf41d403f7, 0x4814eb038e52603f, 0x9dafbacc58e2d651,
  0xfe2f458e4be170af, 0x4457ec414df6a940, 0x06e62f1451123314, 0xbd1014d173ba92cc,
  0xdef318e25ed57760, 0x9fea0de9dfca8525, 0x459de1e76c20624b, 0xaeec189617e2d666,
  0x126a2c06ab5a83cb, 0xb1321532360f6132, 0x65421503dbb40123, 0x2d67c287ea089ab3,
  0x6c93bff5a56bd6b6, 0x4ffb2036cab6d98d, 0xce7b785b1be7ad4f, 0xedb42ef6189fd163,
  0xdc905288703988f6, 0x365f9c1d2c691884, 0xc640583680d99bfe, 0x3cd4624c07593ec6,
  0x7f1ea8d85d7c5805, 0x014842d480b57149, 0x0b649bcb5a828688, 0xbcd5708ed79b18f0,
  0xe987c862fbd2f2f0, 0x982731671f0cd82c, 0xbaf13e8b16d8c063, 0x8ea3109cbd951bba,
  0xd141045bfb385cad, 0x2acbc1a0af1f7d30, 0xe6444d89df03bfdf, 0xa18cc771b8188ff9,
  0x9834429db01c39bb, 0x214add07fe086a1f, 0x8f07c19b1f6b3ff9, 0x56a297b1bf4ffe55,
  0x94d558e493c54fc7, 0x40bfc24c764552cb, 0x931a706f8a8520cb, 0x32229d322935bd52,
  0x2560d0f5dc4fefaf, 0x9dbcc48355969bb6, 0x0fd81c3985c0b56a, 0xe03817e1560f2bda,
  0xc1bb4f81d892b2d5, 0xb0c4864f4e28d2d7, 0x3ecc49f9d9d6c263, 0x51307e99b52ba65e,
  0x8af2b688da84a752, 0xf5d72523b91b20b6, 0x6d95ff1ff4634806, 0x562f21555458339a,
  0xc0ce47f889336346, 0x487823e5089b40d8, 0xe4727c7ebc6d9592, 0x5a8f7277e94970ba,
  0xfca2f406b1c8bb50, 0x5b1f8a95f1791070, 0xd304af9fc9028605, 0x5440ab7fc930e748,
  0x312d25fbca2ab5a1, 0x10f4a4b234a4d575, 0x90301d55047e7473, 0x3b6372886c61591e,
  0x293402b77c444e06, 0x451f34a4d3e97dd7, 0x3158d814d81bc57b, 0x034942425b9bda69,
  0xe2032ff9e532d9bb, 0x62ae066b8b2179e5, 0x9545e10c2f8d71d8, 0x7ff7483eb2d23fc0,
  0x00945fcebdc98d86, 0x8764bbbe99b26ca2, 0x1b1ec62284c0bfc3, 0x58e0fcc4f0aa362b,
  0x5f4abefa878d458d, 0xfd74ac2f9607c519, 0xa4e3fb37df8cbfa9, 0xbf697e43cac574e5,
  0x86f14a3f68f4cd53, 0x24a23d076f1ce522, 0xe725cd8048868cc8, 0xbf3c729eb2464362,
  0xd8f6cd57b3cc1ed8, 0x6329e52425541577, 0x62aa688ad5ae1ac0, 0x0a242566269bf845,
  0x168b1a4753aca74b, 0xf789afefff2e7e3c, 0x6c3362093b6fccdb, 0x4ce8f50bd28c09b2,
  0x006a2db95ae8aa93, 0x975b0d623c3d1a8c, 0x18605d3935338c5b, 0x5bb6f6136cad3c71,
  0x0f53a20701f8d8a6, 0xab8c5ad2e7e93c67, 0x40b5ac5127acaa29, 0x8c7bf63c2075895f,
  0x78bd9f7e014a805c, 0xb2c9e9f4f9c8c032, 0xefd6049827eb91f3, 0x2be459f482c16fbd,
  0xd92ce0c5745aaa8c, 0x0aaa8fb298d965b9, 0x2b37f92c6c803b15, 0x8c54a5e94e0f0e78,
  0x95f9b6e90c0a3032, 0xe7939faa436c7874, 0xd16bfe8f6a8a40c9, 0x44982b86263fd2fa,
  0xe285fb39f984e583, 0x779a8df72d7619d3, 0xf2d79a8de8d5dd1e, 0xd1037354d66684e2,
  0x004c82a4e668a8e5, 0x31d40a7668b044e6, 0xd70578538bd02c11, 0xdb45431078c5f482,
  0x977121bb7f6a51ad, 0x73d5ccbd34eff8dd, 0xe437a07d356e17cd, 0x47b2782043c95627,
  0x9fb251413e41d49a, 0xccd70b60652513d3, 0x1c95b31e8a1b49b2, 0xcae73dfd1bcb4c1b,
  0x34d98331b1f5b70f, 0x784e39f22338d92f, 0x18613d4a064df420, 0xf1d8dae25f0bcebe,
  0x33f77c15ae855efc, 0x3c88b3b912eb109c, 0x956a2ec96bafeea5, 0x1aa005b5e0ad0e87,
  0x5500d70527c4bb8e, 0xe36c57196421cc44, 0x13c4d286cc36ee39, 0x5654a23d818b2a81,
  0x77b1dc13d161abdc, 0x734f44de5f8d5eb5, 0x60717e174a6c89a2, 0xd47d9649266a211e,
  0x5b13a4322bb69e90, 0xf7669609f8b5fc3c, 0x21e6ac55bedcdac9, 0x9b56b62b61166dea,
  0xf48f66b939797e9c, 0x35f332f9c0e6ae9a, 0xcc733f6a9a878db0, 0x3da161e41cc108c2,
  0xb7d74ae535914d51, 0x4d493b0b11d36469, 0xce264d1dfba9741a, 0xa9d1f2dc7436dc06,
  0x70738016604c2a27, 0x231d36e96e93f3d5, 0x7666881197838d19, 0x4a2a83090aaad40c,
  0xf1e761591668b35d, 0x7363236497f730a7, 0x301080e37379dd4d, 0x502dea2971827042,
  0xc2c5eb858f32625f, 0x786afb9edfafbdff, 0xdaee0d868490b2a4, 0x617366b3268609f6,
  0xae0e35a0fe46173e, 0xd1a07de93e824f11, 0x079b8b115ea4cca8, 0x93a99274558faebb,
  0xfb1e6e22e08a03b3, 0xea635fdba3698dd0, 0xcf53659328503a5c, 0xcde3b31e6fd5d780,
  0x8e3e4221d3614413, 0xef14d0d86bf1a22c, 0xe1d830d3f16c5ddb, 0xaabd2b2a451504e1]

def masks : List Nat := [
  0,
  0,
  0,
  0,
  0,
  0x0000000001804110,
  0x0000000001803110,
  0x0000000018035100,
  0x0000001800035300,
  0x0000019000353000,
  0x0000590003530000,
  0x0000d90003530000,
  0x0000d90103530000,
  0x0000d90303530000,
  0x0000d90313530000,
  0x0000d90f03530000,
  0x0000d90303537000,
  0x0000d90703537000,
  0x0000d90707537000,
  0x0000d91707537000,
  0x0000d91747537000,
  0x0000d91767537000,
  0x0000d93767537000,
  0x0000d93777537000,
  0x0000d93777577000,
  0x0000db3777577000]

/-- `gear` lookup: entry `b` of the fixed 256-entry table (`var gear` in the source). -/
def gear (b : Nat) : Nat := gearTable.getD b 0

/-- `gearShifted[i] = gear[i] << 1` (uint64), computed by the package `init`. -/
def gearShifted (b : Nat) : Nat := w64 (gear b <<< 1)

/-- Seeded base table built by `NewChunker`: `gear[i] ^ seed` when `seed != 0`,
otherwise the global `gear` table itself. -/
def seededGear (seed : Nat) : Nat → Nat :=
  if seed = 0 then gear else fun i => gear i ^^^ seed

/-- Seeded shifted table built by `NewChunker`: `gearShifted[i] ^ (seed << 1)`
when `seed != 0`, otherwise the global `gearShifted` table itself. -/
def seededGearShifted (seed : Nat) : Nat → Nat :=
  if seed = 0 then gearShifted else fun i => gearShifted i ^^^ w64 (seed <<< 1)

/-- Immutable part of the Go `Chunker` struct: sizes, masks and gear tables. -/
structure Chunker where
  minSize : Nat
  maxSize : Nat
  normalizeSize : Nat
  maskSmall : Nat
  maskLarge : Nat
  maskSmallShifted : Nat
  maskLargeShifted : Nat
  gear : Nat → Nat
  gearShifted : Nat → Nat

/-- First fingerprint update of a pair: `fingerprint = (fingerprint << 2) + gearShifted[data[i]]`. -/
def step1 (gs : Nat → Nat) (data : List Nat) (i fp : Nat) : Nat :=
  w64 ((fp <<< 2) + gs (data.getD i 0))

/-- Second fingerprint update of a pair: `fingerprint = fingerprint + gear[data[i+1]]`. -/
def step2 (g : Nat → Nat) (data : List Nat) (i fp1 : Nat) : Nat :=
  w64 (fp1 + g (data.getD (i + 1) 0))

/-- One iteration of a `Chunker.cut` scan loop at pair `(i, i+1)`:
test the shifted mask after `step1`, then the plain mask after `step2`;
`Sum.inl (j, fp)` declares a boundary, `Sum.inr fp2` continues the loop. -/
def pairTest (g gs : Nat → Nat) (mSh m : Nat) (data : List Nat) (i fp : Nat) :
    Sum (Nat × Nat) Nat :=
  if step1 gs data i fp &&& mSh = 0 then Sum.inl (i, step1 gs data i fp)
  else if step2 g data i (step1 gs data i fp) &&& m = 0 then
    Sum.inl (i + 1, step2 g data i (step1 gs data i fp))
  else Sum.inr (step2 g data i (step1 gs data i fp))

/-- Iterations of a scan loop, driven structurally by the remaining distance
`k = stop - i` (the Go loop `for i := ...; i < stop; i += 2`): with `k = 0`
the loop condition fails; with `k = 1` one last pair is tested; otherwise a
pair is tested and the loop continues at `i + 2`. -/
def scanGo (g gs : Nat → Nat) (mSh m : Nat) (data : List Nat) :
    Nat → Nat → Nat → Sum (Nat × Nat) Nat
  | 0, _, fp => Sum.inr fp
  | 1, i, fp => pairTest g gs mSh m data i fp
  | k + 2, i, fp =>
    match pairTest g gs mSh m data i fp with
    | Sum.inl r => Sum.inl r
    | Sum.inr fp2 => scanGo g gs mSh m data k (i + 2) fp2

/-- One scan loop of `Chunker.cut` (either the small-mask or the large-mask
loop): from position `i` (stepping by 2) up to `stop`. -/
def scanPhase (g gs : Nat → Nat) (mSh m : Nat) (data : List Nat) (stop i fp : Nat) :
    Sum (Nat × Nat) Nat :=
  scanGo g gs mSh m data (stop - i) i fp

/-- `scanPhase` satisfies the defining equation of the Go loop. -/
theorem scanPhase_eq (g gs : Nat → Nat) (mSh m : Nat) (data : List Nat)
    (stop i fp : Nat) :
    scanPhase g gs mSh m data stop i fp =
      if i < stop then
        match pairTest g gs mSh m data i fp with
        | Sum.inl r => Sum.inl r
        | Sum.inr fp2 => scanPhase g gs mSh m data stop (i + 2) fp2
      else Sum.inr fp := by
  by_cases h : i < stop
  · rw [if_pos h]
    obtain ⟨k, hk⟩ : ∃ k, stop - i = k + 1 := ⟨stop - i - 1, by omega⟩
    unfold scanPhase
    rw [hk]
    rcases k with _ | k
    · have h2 : stop - (i + 2) = 0 := by omega
      rw [h2, scanGo]
      cases hp : pairTest g gs mSh m data i fp
      · rfl
      · rfl
    · have h2 : stop - (i + 2) = k := by omega
      rw [h2]
      show scanGo g gs mSh m data (k + 1 + 1) i fp = _
      rw [scanGo]
  · rw [if_neg h]
    unfold scanPhase
    have h0 : stop - i = 0 := by omega
    rw [h0]
    rfl

/-- `Chunker.cut`: the cut-point finder. `x - x % 2` renders Go's `x &^ 1`
(round down to even). Returns `(length, fingerprint)`. -/
def cut (c : Chunker) (data : List Nat) : Nat × Nat :=
  if data.length ≤ c.minSize then (data.length, 0)
  else
    let maxBoundary := min data.length c.maxSize
    let normalizeBoundary := min maxBoundary c.normalizeSize
    let scanStart := c.minSize - c.minSize % 2
    let normalizeAt := normalizeBoundary - normalizeBoundary % 2
    let scanEnd := maxBoundary - maxBoundary % 2
    match scanPhase c.gear c.gearShifted c.maskSmallShifted c.maskSmall data normalizeAt
        scanStart 0 with
    | Sum.inl r => r
    | Sum.inr fp =>
      match scanPhase c.gear c.gearShifted c.maskLargeShifted c.maskLarge data scanEnd
          normalizeAt fp with
      | Sum.inl r => r
      | Sum.inr fp2 => (maxBoundary, fp2)

example : cut ⟨2, 6, 4, 1, 1, 2, 2, fun _ => 2, fun _ => 4⟩ [9, 9, 9] = (3, 0) := by
  decide

/-! ## Reader model and buffer machine -/

/-- One answer of the byte source to a `Read` call: a batch of bytes (possibly
fewer than requested) or an error with code `code` (a non-EOF read failure). -/
inductive ReadEvent where
  | give (bs : List Nat)
  | fail (code : Nat)
deriving DecidableEq

/-- The byte source: the list of its future read results; once exhausted it
answers end-of-file forever. -/
abbrev Reader := List ReadEvent

/-- All bytes the reader will ever deliver, in order. -/
def readerContent : Reader → List Nat
  | [] => []
  | ReadEvent.give bs :: r => bs ++ readerContent r
  | ReadEvent.fail _ :: r => readerContent r

/-- `true` when the reader contains no failing read. -/
def noFail : Reader → Bool
  | [] => true
  | ReadEvent.give _ :: r => noFail r
  | ReadEvent.fail _ :: _ => false

/-- Why the `io.ReadFull` read loop stopped: buffer filled, end-of-file, or a
read error. -/
inductive Stop where
  | filled
  | eofStop
  | errStop (code : Nat)
deriving DecidableEq

/-- The loop inside `io.ReadFull`/`io.ReadAtLeast`: keep calling `Read` until
`space` bytes were collected, end-of-file, or an error. Returns the bytes
read, the stop cause and the remaining reader. -/
def readLoop : Reader → Nat → List Nat × Stop × Reader
  | r, 0 => ([], Stop.filled, r)
  | [], _ + 1 => ([], Stop.eofStop, [])
  | ReadEvent.fail code :: rest, _ + 1 => ([], Stop.errStop code, rest)
  | ReadEvent.give bs :: rest, sp + 1 =>
    if bs.length ≤ sp + 1 then
      let r := readLoop rest (sp + 1 - bs.length)
      (bs ++ r.1, r.2.1, r.2.2)
    else
      (bs.take (sp + 1), Stop.filled, ReadEvent.give (bs.drop (sp + 1)) :: rest)

/-- Error classification of `io.ReadFull`: `io.EOF` (nothing read),
`io.ErrUnexpectedEOF` (short read), or another error propagated verbatim. -/
inductive ReadErr where
  | eof
  | unexpectedEOF
  | other (code : Nat)
deriving DecidableEq

/-- `io.ReadFull(reader, buf)` with `space = len(buf)`: read until full;
`io.EOF` if nothing was read, `io.ErrUnexpectedEOF` if some bytes were. -/
def readFull (r : Reader) (space : Nat) : List Nat × Option ReadErr × Reader :=
  match readLoop r space with
  | (bs, Stop.filled, r2) => (bs, none, r2)
  | (bs, Stop.eofStop, r2) =>
    if bs.length > 0 then (bs, some ReadErr.unexpectedEOF, r2)
    else (bs, some ReadErr.eof, r2)
  | (bs, Stop.errStop code, r2) => (bs, some (ReadErr.other code), r2)

/-- Mutable part of the Go `Chunker` struct: buffer, cursors, stream position,
end-of-file flag and the reader. -/
structure ChunkerState where
  buf : List Nat
  bufCursor : Nat
  bufEnd : Nat
  streamPos : Nat
  readerEOF : Bool
  reader : Reader
deriving DecidableEq

/-- `Chunker.fillBuffer`: ensure at least `maxSize` unread bytes are buffered
unless the source is exhausted. Compaction `copy(buf[:avail], buf[cursor:])`
is rendered on lists; on a successful full read `bufEnd` is left untouched
(exactly as in the source). The second component is the propagated non-EOF
error code, if any. -/
def fillBuffer (c : Chunker) (st : ChunkerState) : ChunkerState × Option Nat :=
  let availableToRead := st.bufEnd - st.bufCursor
  if availableToRead ≥ c.maxSize then (st, none)
  else
    let copied := min availableToRead (st.buf.length - st.bufCursor)
    let buf1 := (st.buf.drop st.bufCursor).take copied ++ st.buf.drop copied
    if st.readerEOF then
      ({ st with buf := buf1, bufCursor := 0, bufEnd := availableToRead }, none)
    else
      match readFull st.reader (st.buf.length - availableToRead) with
      | (bs, err, r2) =>
        let buf2 := buf1.take availableToRead ++ bs ++ buf1.drop (availableToRead + bs.length)
        match err with
        | none => ({ st with buf := buf2, bufCursor := 0, reader := r2 }, none)
        | some ReadErr.eof =>
          ({ st with buf := buf2, bufCursor := 0,
                     bufEnd := availableToRead + bs.length,
                     readerEOF := true, reader := r2 }, none)
        | some ReadErr.unexpectedEOF =>
          ({ st with buf := buf2, bufCursor := 0,
                     bufEnd := availableToRead + bs.length,
                     readerEOF := true, reader := r2 }, none)
        | some (ReadErr.other code) =>
          ({ st with buf := buf2, bufCursor := 0, reader := r2 }, some code)

/-- The `Chunk` struct returned by `Next`. -/
structure Chunk where
  Offset : Nat
  Length : Nat
  Data : List Nat
  Fingerprint : Nat
deriving DecidableEq, Inhabited

/-- Outcome of one `Next` call: a chunk, the `io.EOF` end-of-stream sentinel,
or a propagated read-error code. -/
inductive NextResult where
  | chunk (ch : Chunk)
  | eof
  | err (code : Nat)
deriving DecidableEq

/-- `Chunker.Next`: fill the buffer, signal `io.EOF` on an empty window, else
cut the window `buf[bufCursor:bufEnd]` and advance the cursors. -/
def next (c : Chunker) (st : ChunkerState) : NextResult × ChunkerState :=
  match fillBuffer c st with
  | (st1, some code) => (NextResult.err code, st1)
  | (st1, none) =>
    if st1.bufEnd = 0 then (NextResult.eof, st1)
    else
      let r := cut c ((st1.buf.drop st1.bufCursor).take (st1.bufEnd - st1.bufCursor))
      (NextResult.chunk { Offset := st1.streamPos, Length := r.1,
                          Data := (st1.buf.drop st1.bufCursor).take r.1,
                          Fingerprint := r.2 },
        { st1 with bufCursor := st1.bufCursor + r.1,
                   streamPos := st1.streamPos + r.1 })

/-- `Chunker.Reset`: new reader, zeroed stream position, cleared EOF flag,
window marked empty (cursor and end at the buffer's length). -/
def reset (st : ChunkerState) (rd : Reader) : ChunkerState :=
  { st with reader := rd, streamPos := 0, readerEOF := false,
            bufCursor := st.buf.length, bufEnd := st.buf.length }

/-- The state `NewChunker` installs: a fresh zeroed buffer of `bufSize` bytes
with `bufCursor = bufEnd = bufSize` (empty window, fill forced). -/
def initState (bufSize : Nat) (rd : Reader) : ChunkerState :=
  { buf := List.replicate bufSize 0, bufCursor := bufSize, bufEnd := bufSize,
    streamPos := 0, readerEOF := false, reader := rd }

/-- How a sequence of `Next` calls ended: end-of-stream, a read error, or the
step budget ran out (the budget is only a formal device; any budget larger
than the stream length is enough, see `run_eq_chunksOf`). -/
inductive RunEnd where
  | eof
  | err (code : Nat)
  | fuelOut
deriving DecidableEq

/-- Call `Next` repeatedly (at most `fuel` times), collecting chunks until
end-of-stream or an error. -/
def run (c : Chunker) : Nat → ChunkerState → List Chunk × RunEnd
  | 0, _ => ([], RunEnd.fuelOut)
  | fuel + 1, st =>
    match next c st with
    | (NextResult.chunk ch, st2) =>
      let r := run c fuel st2
      (ch :: r.1, r.2)
    | (NextResult.eof, _) => ([], RunEnd.eof)
    | (NextResult.err code, _) => ([], RunEnd.err code)

/-! ## Options, validation and `NewChunker` -/

/-- Sanity bound `absoluteMinSize` (64 B). -/
def absoluteMinSize : Int := 64

/-- Sanity bound `absoluteMaxSize` (1 GiB). -/
def absoluteMaxSize : Int := 1073741824

/-- Default normalization level. -/
def defaultNormalization : Int := 2

/-- The `options` struct; zero values mean "unset" exactly as in Go. -/
structure options where
  averageSize : Int := 0
  minSize : Int := 0
  maxSize : Int := 0
  normalization : Int := 0
  disableNormalization : Bool := false
  seed : Nat := 0
  bufSize : Int := 0
deriving DecidableEq

/-- `WithMinSize`. -/
def WithMinSize (size : Int) (o : options) : options := { o with minSize := size }

/-- `WithMaxSize`. -/
def WithMaxSize (size : Int) (o : options) : options := { o with maxSize := size }

/-- `WithNormalization` (level 0 disables normalization). -/
def WithNormalization (level : Int) (o : options) : options :=
  { o with normalization := level, disableNormalization := level == 0 }

/-- `WithSeed` (the seed is a `uint64`, modeled as a `Nat`). -/
def WithSeed (seed : Nat) (o : options) : options := { o with seed := seed }

/-- `WithBufferSize`. -/
def WithBufferSize (size : Int) (o : options) : options := { o with bufSize := size }

/-- Apply the option functions in order, as `NewChunker`'s loop does. -/
def applyOpts (o : options) : List (options → options) → options
  | [] => o
  | f :: fs => applyOpts (f o) fs

/-- `options.setDefaults`. `Int.tdiv` is Go's truncating integer division. -/
def options.setDefaults (o : options) : options :=
  let o1 := if o.minSize == 0 then { o with minSize := o.averageSize.tdiv 4 } else o
  let o2 := if o1.maxSize == 0 then { o1 with maxSize := o1.averageSize * 4 } else o1
  let o3 := if o2.bufSize == 0 then { o2 with bufSize := o2.maxSize * 2 } else o2
  if !o3.disableNormalization && o3.normalization == 0 then
    { o3 with normalization := defaultNormalization }
  else o3

/-- `options.validate`. Go's power-of-two test `averageSize&(averageSize-1)`
is evaluated on `toNat`; it is only reached for positive values (the `<= 0`
disjunct short-circuits first, as in the source). -/
def options.validate (o : options) : Except String Unit :=
  if o.averageSize < absoluteMinSize ∨ o.averageSize > absoluteMaxSize then
    Except.error "AverageSize must be in range 64B to 1GiB"
  else if o.averageSize ≤ 0 ∨ (o.averageSize.toNat &&& (o.averageSize.toNat - 1)) ≠ 0 then
    Except.error "AverageSize must be a power of 2"
  else if o.minSize < absoluteMinSize ∨ o.minSize > absoluteMaxSize then
    Except.error "MinSize must be in range 64B to 1GiB"
  else if o.maxSize < absoluteMinSize ∨ o.maxSize > absoluteMaxSize then
    Except.error "MaxSize must be in range 64B to 1GiB"
  else if o.maxSize ≤ o.minSize then
    Except.error "MinSize must be less than MaxSize"
  else if o.averageSize > o.maxSize ∨ o.averageSize < o.minSize then
    Except.error "AverageSize must be between MinSize and MaxSize"
  else if !o.disableNormalization ∧ (o.normalization < 0 ∨ o.normalization > 3) then
    Except.error "Normalization must be 0, 1, 2, or 3"
  else if o.bufSize ≤ o.maxSize then
    Except.error "BufferSize must be greater than MaxSize"
  else Except.ok ()

/-- `bits.TrailingZeros` on a positive argument, driven structurally by a
halving budget (for `0 < n`, `n` halvings always suffice). -/
def trailingZerosGo : Nat → Nat → Nat
  | 0, _ => 0
  | fuel + 1, n => if n % 2 = 1 ∨ n = 0 then 0 else trailingZerosGo fuel (n / 2) + 1

/-- `bits.TrailingZeros(uint(n))` on a 64-bit platform: 64 for 0, else the
number of trailing zero bits. -/
def trailingZeros (n : Nat) : Nat := if n = 0 then 64 else trailingZerosGo n n

/-- `NewChunker` (everything after reading the options): validate, build the
seeded tables, check the mask-table bounds, and assemble the chunker; returns
the immutable chunker and the buffer size with which `initState` is run.
`largeBits` uses truncating `Nat` subtraction; the `largeBits < 5` test fails
in exactly the same cases as the Go `int` computation, because
`log2Avg ≥ 6 > 3 ≥ normalization` whenever subtraction would truncate a value
that passes the test. -/
def newChunker (averageSize : Int) (opts : List (options → options)) :
    Except String (Chunker × Nat) :=
  let o := (applyOpts { averageSize := averageSize } opts).setDefaults
  match o.validate with
  | Except.error e => Except.error e
  | Except.ok _ =>
    let normalization : Nat := if o.disableNormalization then 0 else o.normalization.toNat
    let log2Avg := trailingZeros o.averageSize.toNat
    let smallBits := log2Avg + normalization
    let largeBits := log2Avg - normalization
    if smallBits > 25 ∨ largeBits < 5 then
      Except.error "AverageSize/Normalization combination exceeds mask table bounds"
    else
      Except.ok ({ minSize := o.minSize.toNat, maxSize := o.maxSize.toNat,
                   normalizeSize := o.averageSize.toNat,
                   maskSmall := masks.getD smallBits 0,
                   maskLarge := masks.getD largeBits 0,
                   maskSmallShifted := w64 (masks.getD smallBits 0 <<< 1),
                   maskLargeShifted := w64 (masks.getD largeBits 0 <<< 1),
                   gear := seededGear o.seed,
                   gearShifted := seededGearShifted o.seed }, o.bufSize.toNat)

/-- `true` for `Except.ok`. -/
def isOkE {ε α : Type} : Except ε α → Bool
  | Except.ok _ => true
  | Except.error _ => false

/-! ## Reference formulations written from the specification text -/

/-- Reference scan written from the specification/claim text for the
cut-point finder: a single pair-scan from the rounded `minSize` to the
rounded max boundary, testing against the small masks at positions before
the rounded normalize boundary and against the large masks from there on. -/
def refLoop (c : Chunker) (data : List Nat) (normalizeAt : Nat) :
    Nat → Nat → Nat → Sum (Nat × Nat) Nat
  | 0, _, fp => Sum.inr fp
  | 1, i, fp =>
    if i < normalizeAt then pairTest c.gear c.gearShifted c.maskSmallShifted c.maskSmall data i fp
    else pairTest c.gear c.gearShifted c.maskLargeShifted c.maskLarge data i fp
  | k + 2, i, fp =>
    match (if i < normalizeAt then
        pairTest c.gear c.gearShifted c.maskSmallShifted c.maskSmall data i fp
      else pairTest c.gear c.gearShifted c.maskLargeShifted c.maskLarge data i fp) with
    | Sum.inl r => Sum.inl r
    | Sum.inr fp2 => refLoop c data normalizeAt k (i + 2) fp2

/-- Modelled from the specification text (sections 4.4 / claim C1): the
two-phase reference algorithm for a region longer than `minSize`, phrased as
one scan with a per-position mask switch at the rounded normalize boundary;
if no test fires, cut at the (unrounded) max boundary with the accumulated
fingerprint. -/
def cutRef (c : Chunker) (data : List Nat) : Nat × Nat :=
  let maxBoundary := min data.length c.maxSize
  let normalizeBoundary := min maxBoundary c.normalizeSize
  let scanStart := c.minSize - c.minSize % 2
  let normalizeAt := normalizeBoundary - normalizeBoundary % 2
  let scanEnd := maxBoundary - maxBoundary % 2
  match refLoop c data normalizeAt (scanEnd - scanStart) scanStart 0 with
  | Sum.inl r => r
  | Sum.inr fp => (maxBoundary, fp)

/-- The chunk sequence of a byte stream, as a pure function of the logical
content: cut the remaining bytes, emit the chunk, recurse on the rest.
`fuel` is a step budget (any budget above the stream length is enough). -/
def chunksOf (c : Chunker) : Nat → Nat → List Nat → List Chunk
  | 0, _, _ => []
  | fuel + 1, pos, s =>
    if s.isEmpty then []
    else
      let r := cut c s
      { Offset := pos, Length := r.1, Data := s.take r.1, Fingerprint := r.2 } ::
        chunksOf c fuel (pos + r.1) (s.drop r.1)

/-! ## Properties of the scan loops and of `cut` -/

theorem scanGo_inl_bounds (g gs : Nat → Nat) (mSh m : Nat) (data : List Nat) :
    ∀ k i fp j f, scanGo g gs mSh m data k i fp = Sum.inl (j, f) →
      i ≤ j ∧ j ≤ i + k := by
  intro k
  induction k using Nat.strong_induction_on with
  | _ k ih =>
    rcases k with _ | (_ | k) <;> intro i fp j f h
    · simp [scanGo] at h
    · unfold scanGo at h
      unfold pairTest at h
      split at h
      · cases h; omega
      · split at h
        · cases h; omega
        · cases h
    · unfold scanGo at h
      rcases hp : pairTest g gs mSh m data i fp with r | fp2 <;> rw [hp] at h
      · unfold pairTest at hp
        split at hp
        · cases hp; cases h; omega
        · split at hp
          · cases hp; cases h; omega
          · cases hp
      · have := ih k (by omega) (i + 2) fp2 j f h
        omega

theorem pairTest_congr (g gs : Nat → Nat) (mSh m : Nat) (data1 data2 : List Nat)
    (i fp : Nat) (hi : data1.getD i 0 = data2.getD i 0)
    (hi1 : data1.getD (i + 1) 0 = data2.getD (i + 1) 0) :
    pairTest g gs mSh m data1 i fp = pairTest g gs mSh m data2 i fp := by
  unfold pairTest step1 step2
  rw [hi, hi1]

theorem scanGo_congr (g gs : Nat → Nat) (mSh m : Nat) (data1 data2 : List Nat) :
    ∀ k, 2 ∣ k → ∀ i fp,
      (∀ j, i ≤ j → j < i + k → data1.getD j 0 = data2.getD j 0) →
      scanGo g gs mSh m data1 k i fp = scanGo g gs mSh m data2 k i fp := by
  intro k
  induction k using Nat.strong_induction_on with
  | _ k ih =>
    rcases k with _ | (_ | k) <;> intro hk i fp hag
    · rfl
    · omega
    · have hpc : pairTest g gs mSh m data1 i fp = pairTest g gs mSh m data2 i fp :=
        pairTest_congr g gs mSh m data1 data2 i fp
          (hag i (le_refl i) (by omega)) (hag (i + 1) (by omega) (by omega))
    
      show scanGo g gs mSh m data1 (k + 2) i fp = scanGo g gs mSh m data2 (k + 2) i fp
      unfold scanGo
      rw [hpc]
      rcases pairTest g gs mSh m data2 i fp with r | fp2
      · rfl
      · exact ih k (by omega) (by omega) (i + 2) fp2
          (fun j hj1 hj2 => hag j (by omega) (by omega))

theorem getD_take_of_lt (l : List Nat) (n j : Nat) (h : j < n) :
    (l.take n).getD j 0 = l.getD j 0 := by
  simp only [List.getD_eq_getElem?_getD]
  rw [List.getElem?_take]
  simp [h]

theorem cut_bounds (c : Chunker) (data : List Nat) (h2 : 2 ≤ c.minSize)
    (h3 : c.minSize < c.maxSize) (h4 : c.minSize ≤ c.normalizeSize)
    (hd : data ≠ []) :
    1 ≤ (cut c data).1 ∧ (cut c data).1 ≤ data.length ∧
      (cut c data).1 ≤ c.maxSize ∧
      (c.minSize < data.length → c.minSize - c.minSize % 2 ≤ (cut c data).1) := by
  have hlen : 1 ≤ data.length := List.length_pos.mpr hd
  by_cases hle : data.length ≤ c.minSize
  · simp only [cut, if_pos hle]
    exact ⟨hlen, le_refl _, by omega, by omega⟩
  · simp only [cut, if_neg hle]
    set maxB := min data.length c.maxSize with hmaxB
    set normB := min maxB c.normalizeSize with hnormB
    have hmb1 : maxB ≤ data.length := min_le_left _ _
    have hmb2 : maxB ≤ c.maxSize := min_le_right _ _
    have hmb3 : c.minSize + 1 ≤ maxB := le_min (by omega) h3
    have hnb1 : normB ≤ maxB := min_le_left _ _
    have hnb2 : c.minSize ≤ normB := le_min (by omega) h4
    clear_value maxB normB
    rcases hA : scanPhase c.gear c.gearShifted c.maskSmallShifted c.maskSmall data
        (normB - normB % 2) (c.minSize - c.minSize % 2) 0 with ⟨j, f⟩ | fp
    · have hb := scanGo_inl_bounds _ _ _ _ _ _ _ _ _ _ hA
      simp only [hA]
      exact ⟨by omega, by omega, by omega, fun _ => by omega⟩
    · rcases hB : scanPhase c.gear c.gearShifted c.maskLargeShifted c.maskLarge data
          (maxB - maxB % 2) (normB - normB % 2) fp with ⟨j, f⟩ | fp2
      · have hb := scanGo_inl_bounds _ _ _ _ _ _ _ _ _ _ hB
        simp only [hA, hB]
        exact ⟨by omega, by omega, by omega, fun _ => by omega⟩
      · simp only [hA, hB]
        exact ⟨by omega, by omega, by omega, fun _ => by omega⟩

theorem cut_congr_prefix (c : Chunker) (data : List Nat) (wlen : Nat)
    (h1 : c.maxSize ≤ wlen) (h2 : wlen ≤ data.length) (h3 : c.minSize < c.maxSize) :
    cut c (data.take wlen) = cut c data := by
  have hlt : (data.take wlen).length = wlen := by
    rw [List.length_take]
    omega
  have hmbw : min wlen c.maxSize = min data.length c.maxSize := by omega
  have hgets : ∀ j, j < c.maxSize → (data.take wlen).getD j 0 = data.getD j 0 :=
    fun j hj => getD_take_of_lt data wlen j (by omega)
  have hle1 : ¬ wlen ≤ c.minSize := by omega
  have hle2 : ¬ data.length ≤ c.minSize := by omega
  simp only [cut, hlt, if_neg hle1, if_neg hle2, hmbw]
  set maxB := min data.length c.maxSize with hmaxB
  set normB := min maxB c.normalizeSize with hnormB
  have hmb2 : maxB ≤ c.maxSize := min_le_right _ _
  have hnb1 : normB ≤ maxB := min_le_left _ _
  have hs1 : scanPhase c.gear c.gearShifted c.maskSmallShifted c.maskSmall (data.take wlen)
      (normB - normB % 2) (c.minSize - c.minSize % 2) 0 =
      scanPhase c.gear c.gearShifted c.maskSmallShifted c.maskSmall data
      (normB - normB % 2) (c.minSize - c.minSize % 2) 0 := by
    unfold scanPhase
    exact scanGo_congr _ _ _ _ _ _ _ (by omega) _ _
      (fun j hj1 hj2 => hgets j (by omega))
  have hs2 : ∀ fp, scanPhase c.gear c.gearShifted c.maskLargeShifted c.maskLarge (data.take wlen)
      (maxB - maxB % 2) (normB - normB % 2) fp =
      scanPhase c.gear c.gearShifted c.maskLargeShifted c.maskLarge data
      (maxB - maxB % 2) (normB - normB % 2) fp := by
    intro fp
    unfold scanPhase
    exact scanGo_congr _ _ _ _ _ _ _ (by omega) _ _
      (fun j hj1 hj2 => hgets j (by omega))
  rw [hs1]
  rcases hA : scanPhase c.gear c.gearShifted c.maskSmallShifted c.maskSmall data
      (normB - normB % 2) (c.minSize - c.minSize % 2) 0 with r | fp
  · rfl
  · simp only [hs2]

/-! ## `cut` agrees with the reference formulation (claim C1 groundwork) -/

theorem scanGo_step (g gs : Nat → Nat) (mSh m : Nat) (data : List Nat)
    (k i fp : Nat) :
    scanGo g gs mSh m data (k + 2) i fp =
      match pairTest g gs mSh m data i fp with
      | Sum.inl r => Sum.inl r
      | Sum.inr fp2 => scanGo g gs mSh m data k (i + 2) fp2 := rfl

theorem scanGo_one_eq (g gs : Nat → Nat) (mSh m : Nat) (data : List Nat) (i fp : Nat) :
    scanGo g gs mSh m data 1 i fp = pairTest g gs mSh m data i fp := rfl

theorem refLoop_step (c : Chunker) (data : List Nat) (normalizeAt k i fp : Nat) :
    refLoop c data normalizeAt (k + 2) i fp =
      match (if i < normalizeAt then
          pairTest c.gear c.gearShifted c.maskSmallShifted c.maskSmall data i fp
        else pairTest c.gear c.gearShifted c.maskLargeShifted c.maskLarge data i fp) with
      | Sum.inl r => Sum.inl r
      | Sum.inr fp2 => refLoop c data normalizeAt k (i + 2) fp2 := rfl

theorem refLoop_large (c : Chunker) (data : List Nat) (normalizeAt : Nat) :
    ∀ k i fp, normalizeAt ≤ i →
      refLoop c data normalizeAt k i fp =
        scanGo c.gear c.gearShifted c.maskLargeShifted c.maskLarge data k i fp := by
  intro k
  induction k using Nat.strong_induction_on with
  | _ k ih =>
    rcases k with _ | (_ | k) <;> intro i fp hi
    · rfl
    · show (if i < normalizeAt then _ else _) = _
      rw [if_neg (by omega), scanGo_one_eq]
    · rw [refLoop_step, scanGo_step, if_neg (by omega)]
      rcases pairTest c.gear c.gearShifted c.maskLargeShifted c.maskLarge data i fp with r | fp2
      · rfl
      · exact ih k (by omega) (i + 2) fp2 (by omega)

theorem refLoop_split (c : Chunker) (data : List Nat) (normalizeAt : Nat) :
    ∀ d1 kL i fp, 2 ∣ d1 → i + d1 = normalizeAt →
      refLoop c data normalizeAt (d1 + kL) i fp =
        match scanGo c.gear c.gearShifted c.maskSmallShifted c.maskSmall data d1 i fp with
        | Sum.inl r => Sum.inl r
        | Sum.inr fp2 =>
          scanGo c.gear c.gearShifted c.maskLargeShifted c.maskLarge data kL (i + d1) fp2 := by
  intro d1
  induction d1 using Nat.strong_induction_on with
  | _ d1 ih =>
    rcases d1 with _ | (_ | d) <;> intro kL i fp hdvd hnorm
    · simp only [Nat.zero_add, Nat.add_zero]
      exact refLoop_large c data normalizeAt kL i fp (by omega)
    · omega
    · have harr : d + 2 + kL = (d + kL) + 2 := by omega
      rw [harr, refLoop_step, if_pos (by omega), scanGo_step]
      rcases hp : pairTest c.gear c.gearShifted c.maskSmallShifted c.maskSmall data i fp with r | fp2
      · rfl
      · show refLoop c data normalizeAt (d + kL) (i + 2) fp2 =
          match scanGo c.gear c.gearShifted c.maskSmallShifted c.maskSmall data d (i + 2) fp2 with
          | Sum.inl r => Sum.inl r
          | Sum.inr fp3 =>
            scanGo c.gear c.gearShifted c.maskLargeShifted c.maskLarge data kL (i + (d + 1 + 1)) fp3
        have hi2 : i + 2 + d = i + (d + 1 + 1) := by omega
        rw [ih d (by omega) kL (i + 2) fp2 (by omega) (by omega), hi2]

/-! ## Behaviour of the read loop on failure-free readers -/

theorem readLoop_spec (r : Reader) (hnf : noFail r = true) :
    ∀ space, (readLoop r space).1 = (readerContent r).take space ∧
      (readLoop r space).2.1 =
        (if space ≤ (readerContent r).length then Stop.filled else Stop.eofStop) ∧
      readerContent (readLoop r space).2.2 = (readerContent r).drop space ∧
      noFail (readLoop r space).2.2 = true := by
  induction r with
  | nil =>
    intro space
    rcases space with _ | sp
    · simp [readLoop, readerContent, noFail]
    · simp [readLoop, readerContent, noFail]
  | cons e rest ih =>
    intro space
    rcases e with bs | code
    · rcases space with _ | sp
      · simp [readLoop, noFail] at hnf ⊢
        exact hnf
      · have hnf2 : noFail rest = true := by simpa [noFail] using hnf
        by_cases hlen : bs.length ≤ sp + 1
        · have ih2 := ih hnf2 (sp + 1 - bs.length)
          simp only [readLoop, if_pos hlen, readerContent]
          refine ⟨?_, ?_, ?_, ih2.2.2.2⟩
          · rw [ih2.1, List.take_append_eq_append_take]
            congr 1
            rw [List.take_of_length_le hlen]
          · rw [ih2.2.1]
            simp only [List.length_append]
            by_cases h2 : sp + 1 - bs.length ≤ (readerContent rest).length
            · rw [if_pos h2, if_pos (by omega)]
            · rw [if_neg h2, if_neg (by omega)]
          · rw [ih2.2.2.1, List.drop_append_eq_append_drop,
              List.drop_of_length_le hlen]
            simp
        · simp only [readLoop, if_neg hlen, readerContent, noFail]
          refine ⟨?_, ?_, ?_, hnf⟩
          · rw [List.take_append_eq_append_take]
            have : sp + 1 - bs.length = 0 := by omega
            rw [this]
            simp
          · simp only [List.length_append]
            rw [if_pos (by omega)]
          · rw [List.drop_append_eq_append_drop]
            have : sp + 1 - bs.length = 0 := by omega
            rw [this]
            simp [readerContent]
    · simp [noFail] at hnf

/-! ## The buffer invariant -/

/-- Number of valid unread bytes, `bufEnd - bufCursor`. -/
def wlen (st : ChunkerState) : Nat := st.bufEnd - st.bufCursor

/-- The valid window `buf[bufCursor:bufEnd]`. -/
def window (st : ChunkerState) : List Nat :=
  (st.buf.drop st.bufCursor).take (st.bufEnd - st.bufCursor)

/-- Invariant tying a chunker state to `s`, the logical byte content not yet
returned to the caller: the window is a prefix of `s`; the reader holds the
rest of `s` unless end-of-file was recorded, in which case the window is all
of `s`; after any successful full read `bufEnd` stays at the buffer's length,
which the success path of `fillBuffer` relies on. -/
def BufInv (c : Chunker) (st : ChunkerState) (s : List Nat) : Prop :=
  c.maxSize < st.buf.length ∧
  st.bufCursor ≤ st.bufEnd ∧
  st.bufEnd ≤ st.buf.length ∧
  window st = s.take (wlen st) ∧
  wlen st ≤ s.length ∧
  (st.readerEOF = true → wlen st = s.length) ∧
  (st.readerEOF = false →
    st.bufEnd = st.buf.length ∧ readerContent st.reader = s.drop (wlen st)) ∧
  noFail st.reader = true

theorem readFull_filled (r : Reader) (space : Nat) (hnf : noFail r = true)
    (hsp : space ≤ (readerContent r).length) :
    readFull r space =
      ((readerContent r).take space, none, (readLoop r space).2.2) ∧
      readerContent (readLoop r space).2.2 = (readerContent r).drop space ∧
      noFail (readLoop r space).2.2 = true := by
  have h := readLoop_spec r hnf space
  have heq : readLoop r space =
      ((readerContent r).take space, Stop.filled, (readLoop r space).2.2) := by
    rcases hr : readLoop r space with ⟨a, b, r2⟩
    rw [hr] at h
    simp only at h
    rw [h.1, h.2.1, if_pos hsp]
  refine ⟨?_, h.2.2.1, h.2.2.2⟩
  rw [readFull, heq]

theorem readFull_eof (r : Reader) (space : Nat) (hnf : noFail r = true)
    (hsp : (readerContent r).length < space) :
    (readFull r space = (readerContent r, some ReadErr.eof, (readLoop r space).2.2) ∨
      readFull r space =
        (readerContent r, some ReadErr.unexpectedEOF, (readLoop r space).2.2)) ∧
      readerContent (readLoop r space).2.2 = [] ∧
      noFail (readLoop r space).2.2 = true := by
  have h := readLoop_spec r hnf space
  have htk : (readerContent r).take space = readerContent r :=
    List.take_of_length_le (by omega)
  have heq : readLoop r space =
      (readerContent r, Stop.eofStop, (readLoop r space).2.2) := by
    rcases hr : readLoop r space with ⟨a, b, r2⟩
    rw [hr] at h
    simp only at h
    rw [h.1, h.2.1, if_neg (by omega), htk]
  have hdr : (readerContent r).drop space = [] := List.drop_eq_nil_of_le (by omega)
  refine ⟨?_, by rw [h.2.2.1, hdr], h.2.2.2⟩
  rw [readFull, heq]
  by_cases hz : (readerContent r).length > 0
  · right
    simp only [if_pos hz]
  · left
    simp only [if_neg hz]

theorem fillBuffer_spec (c : Chunker) (st : ChunkerState) (s : List Nat)
    (hmax1 : 1 ≤ c.maxSize) (hI : BufInv c st s) :
    (fillBuffer c st).2 = none ∧
      BufInv c (fillBuffer c st).1 s ∧
      (fillBuffer c st).1.streamPos = st.streamPos ∧
      (c.maxSize ≤ wlen (fillBuffer c st).1 ∨ wlen (fillBuffer c st).1 = s.length) ∧
      ((fillBuffer c st).1.bufEnd = 0 ↔ s = []) := by
  obtain ⟨hlen, hce, hel, hwin, hws, heof, hneof, hnf⟩ := hI
  by_cases hA : st.bufEnd - st.bufCursor ≥ c.maxSize
  · -- enough data buffered: no-op
    have hfb : fillBuffer c st = (st, none) := by
      rw [fillBuffer, if_pos hA]
    rw [hfb]
    dsimp only
    have hs1 : s ≠ [] := by
      simp only [wlen] at hws
      rcases s with _ | ⟨b, s'⟩
      · simp at hws; omega
      · simp
    refine ⟨rfl, ⟨hlen, hce, hel, hwin, hws, heof, hneof, hnf⟩, rfl, Or.inl hA, ?_⟩
    constructor
    · intro h0
      exfalso
      omega
    · intro h0
      exact absurd h0 hs1
  · have hcop : min (st.bufEnd - st.bufCursor) (st.buf.length - st.bufCursor) =
        st.bufEnd - st.bufCursor := by omega
    rcases hE : st.readerEOF with _ | _
    · -- reader not yet exhausted: a read happens
      obtain ⟨hend, hrc⟩ := hneof hE
      have hwl : wlen st = st.bufEnd - st.bufCursor := rfl
      have hwin2p : (st.buf.drop st.bufCursor).take (st.bufEnd - st.bufCursor) =
          s.take (st.bufEnd - st.bufCursor) := by
        have h := hwin
        rw [window, wlen] at h
        exact h
      have hrc2p : readerContent st.reader = s.drop (st.bufEnd - st.bufCursor) := by
        rw [hrc, hwl]
      have hclen : (readerContent st.reader).length = s.length - (st.bufEnd - st.bufCursor) := by
        rw [hrc, List.length_drop, hwl]
      have hwinlen : ((st.buf.drop st.bufCursor).take (st.bufEnd - st.bufCursor)).length =
          st.bufEnd - st.bufCursor := by
        rw [List.length_take, List.length_drop]
        omega
      have hbuf1len : ((st.buf.drop st.bufCursor).take (st.bufEnd - st.bufCursor) ++
          st.buf.drop (st.bufEnd - st.bufCursor)).length = st.buf.length := by
        rw [List.length_append, hwinlen, List.length_drop]
        omega
      have hb1take : ((st.buf.drop st.bufCursor).take (st.bufEnd - st.bufCursor) ++
          st.buf.drop (st.bufEnd - st.bufCursor)).take (st.bufEnd - st.bufCursor) =
          (st.buf.drop st.bufCursor).take (st.bufEnd - st.bufCursor) := by
        rw [List.take_append_eq_append_take, hwinlen, Nat.sub_self, List.take_zero,
          List.append_nil, List.take_of_length_le (le_of_eq hwinlen)]
      by_cases hfull : st.buf.length - (st.bufEnd - st.bufCursor) ≤ (readerContent st.reader).length
      · -- full read succeeds; bufEnd stays at the buffer length
        obtain ⟨hrf, hr2c, hr2nf⟩ := readFull_filled st.reader
          (st.buf.length - (st.bufEnd - st.bufCursor)) hnf hfull
        have hbslen : ((readerContent st.reader).take
            (st.buf.length - (st.bufEnd - st.bufCursor))).length =
            st.buf.length - (st.bufEnd - st.bufCursor) := by
          rw [List.length_take]
          omega
        have hfb : fillBuffer c st =
            ({ st with
                buf := ((st.buf.drop st.bufCursor).take (st.bufEnd - st.bufCursor) ++
                    st.buf.drop (st.bufEnd - st.bufCursor)).take (st.bufEnd - st.bufCursor) ++
                  (readerContent st.reader).take (st.buf.length - (st.bufEnd - st.bufCursor)) ++
                  ((st.buf.drop st.bufCursor).take (st.bufEnd - st.bufCursor) ++
                    st.buf.drop (st.bufEnd - st.bufCursor)).drop
                    ((st.bufEnd - st.bufCursor) +
                      ((readerContent st.reader).take
                        (st.buf.length - (st.bufEnd - st.bufCursor))).length),
                bufCursor := 0,
                reader := (readLoop st.reader
                  (st.buf.length - (st.bufEnd - st.bufCursor))).2.2 }, none) := by
          rw [fillBuffer, if_neg hA, hcop, hE, hrf]
          rfl
        rw [hfb]
        dsimp only
        have hdropnil : ((st.buf.drop st.bufCursor).take (st.bufEnd - st.bufCursor) ++
            st.buf.drop (st.bufEnd - st.bufCursor)).drop
            ((st.bufEnd - st.bufCursor) +
              ((readerContent st.reader).take
                (st.buf.length - (st.bufEnd - st.bufCursor))).length) = [] := by
          apply List.drop_eq_nil_of_le
          rw [hbuf1len, hbslen]
          omega
        have hbuflen2 : (((st.buf.drop st.bufCursor).take (st.bufEnd - st.bufCursor) ++
            st.buf.drop (st.bufEnd - st.bufCursor)).take (st.bufEnd - st.bufCursor) ++
            (readerContent st.reader).take (st.buf.length - (st.bufEnd - st.bufCursor)) ++
            ((st.buf.drop st.bufCursor).take (st.bufEnd - st.bufCursor) ++
              st.buf.drop (st.bufEnd - st.bufCursor)).drop
              ((st.bufEnd - st.bufCursor) +
                ((readerContent st.reader).take
                  (st.buf.length - (st.bufEnd - st.bufCursor))).length)).length = st.buf.length := by
        
          rw [hdropnil]
          rw [List.append_nil, List.length_append, hb1take, hwinlen, hbslen]
          omega
        have hwin2 : (((st.buf.drop st.bufCursor).take (st.bufEnd - st.bufCursor) ++
            st.buf.drop (st.bufEnd - st.bufCursor)).take (st.bufEnd - st.bufCursor) ++
            (readerContent st.reader).take (st.buf.length - (st.bufEnd - st.bufCursor)) ++
            ((st.buf.drop st.bufCursor).take (st.bufEnd - st.bufCursor) ++
              st.buf.drop (st.bufEnd - st.bufCursor)).drop
              ((st.bufEnd - st.bufCursor) +
                ((readerContent st.reader).take
                  (st.buf.length - (st.bufEnd - st.bufCursor))).length)) =
            s.take st.buf.length := by
          rw [hdropnil, List.append_nil, hb1take]
          have harith : st.buf.length = (st.bufEnd - st.bufCursor) +
              (st.buf.length - (st.bufEnd - st.bufCursor)) := by omega
          rw [harith, List.take_add, hwin2p, hrc2p]
          have harith2 : st.bufEnd - st.bufCursor + (st.buf.length - (st.bufEnd - st.bufCursor)) -
              (st.bufEnd - st.bufCursor) = st.buf.length - (st.bufEnd - st.bufCursor) := by omega
          rw [harith2]
        -- now discharge the conjuncts
        refine ⟨rfl, ⟨?_, ?_, ?_, ?_, ?_, ?_, ?_, hr2nf⟩, rfl, ?_, ?_⟩
        · rw [hbuflen2]
          exact hlen
        · dsimp only
          omega
        · dsimp only
          rw [hbuflen2]
          omega
        · show (_ : List Nat).take _ = _
          simp only [List.drop_zero, wlen, Nat.sub_zero]
          rw [List.take_of_length_le (le_of_eq (by rw [hbuflen2, hend])), hwin2, hend]
        · simp only [wlen, Nat.sub_zero]
          omega
        · intro hcontra
          rw [hE] at hcontra
          cases hcontra
        · intro _
          dsimp only
          constructor
          · rw [hbuflen2]
            exact hend
          · simp only [wlen, Nat.sub_zero]
            rw [hr2c, hrc2p, List.drop_drop, hend]
            congr 1
            omega
        · left
          simp only [wlen, Nat.sub_zero]
          omega
        · dsimp only
          constructor
          · intro h0
            exfalso
            omega
          · intro h0
            subst h0
            exfalso
            simp only [List.length_nil] at hclen hws
            omega
      · -- short read: the stream ends inside this fill
        obtain ⟨hrfd, hr2c, hr2nf⟩ := readFull_eof st.reader
          (st.buf.length - (st.bufEnd - st.bufCursor)) hnf (by omega)
        have hfb : fillBuffer c st =
            ({ st with
                buf := ((st.buf.drop st.bufCursor).take (st.bufEnd - st.bufCursor) ++
                    st.buf.drop (st.bufEnd - st.bufCursor)).take (st.bufEnd - st.bufCursor) ++
                  readerContent st.reader ++
                  ((st.buf.drop st.bufCursor).take (st.bufEnd - st.bufCursor) ++
                    st.buf.drop (st.bufEnd - st.bufCursor)).drop
                    ((st.bufEnd - st.bufCursor) + (readerContent st.reader).length),
                bufCursor := 0,
                bufEnd := (st.bufEnd - st.bufCursor) + (readerContent st.reader).length,
                readerEOF := true,
                reader := (readLoop st.reader
                  (st.buf.length - (st.bufEnd - st.bufCursor))).2.2 }, none) := by
          rcases hrfd with hrf | hrf <;> (rw [fillBuffer, if_neg hA, hcop, hE, hrf]; rfl)
        rw [hfb]
        dsimp only
        have hslen : s.length = (st.bufEnd - st.bufCursor) + (readerContent st.reader).length := by
          omega
        have hbuflen2 : (((st.buf.drop st.bufCursor).take (st.bufEnd - st.bufCursor) ++
            st.buf.drop (st.bufEnd - st.bufCursor)).take (st.bufEnd - st.bufCursor) ++
            readerContent st.reader ++
            ((st.buf.drop st.bufCursor).take (st.bufEnd - st.bufCursor) ++
              st.buf.drop (st.bufEnd - st.bufCursor)).drop
              ((st.bufEnd - st.bufCursor) + (readerContent st.reader).length)).length =
            st.buf.length := by
          rw [List.length_append, List.length_append, hb1take, hwinlen, List.length_drop,
            hbuf1len]
          omega
        have hwin2 : (((st.buf.drop st.bufCursor).take (st.bufEnd - st.bufCursor) ++
            st.buf.drop (st.bufEnd - st.bufCursor)).take (st.bufEnd - st.bufCursor) ++
            readerContent st.reader ++
            ((st.buf.drop st.bufCursor).take (st.bufEnd - st.bufCursor) ++
              st.buf.drop (st.bufEnd - st.bufCursor)).drop
              ((st.bufEnd - st.bufCursor) + (readerContent st.reader).length)).take
            ((st.bufEnd - st.bufCursor) + (readerContent st.reader).length) = s := by
          rw [hb1take, List.append_assoc, List.take_append_eq_append_take, hwinlen]
          have h1 : st.bufEnd - st.bufCursor + (readerContent st.reader).length -
              (st.bufEnd - st.bufCursor) = (readerContent st.reader).length := by omega
          rw [h1]
          rw [List.take_of_length_le (by rw [hwinlen]; omega)]
          rw [List.take_append_eq_append_take, Nat.sub_self, List.take_zero,
            List.append_nil, List.take_length]
          rw [hwin2p, hrc2p]
          exact List.take_append_drop _ s
        refine ⟨rfl, ⟨?_, ?_, ?_, ?_, ?_, ?_, ?_, hr2nf⟩, rfl, ?_, ?_⟩
        · rw [hbuflen2]
          exact hlen
        · dsimp only
          omega
        · dsimp only
          rw [hbuflen2]
          omega
        · show (_ : List Nat).take _ = _
          simp only [List.drop_zero, wlen, Nat.sub_zero]
          rw [hwin2, ← hslen, List.take_length]
        · simp only [wlen, Nat.sub_zero]
          omega
        · intro _
          simp only [wlen, Nat.sub_zero]
          omega
        · intro hcontra
          cases hcontra
        · right
          simp only [wlen, Nat.sub_zero]
          omega
        · dsimp only
          constructor
          · intro h0
            have hs0 : s.length = 0 := by omega
            exact List.length_eq_zero.mp hs0
          · intro h0
            subst h0
            simp only [List.length_nil] at hslen
            omega
    · -- reader exhausted: just compact and truncate
      have hwl : st.bufEnd - st.bufCursor = s.length := heof hE
      have hfb : fillBuffer c st =
          ({ st with
              buf := (st.buf.drop st.bufCursor).take (st.bufEnd - st.bufCursor) ++
                st.buf.drop (st.bufEnd - st.bufCursor),
              bufCursor := 0, bufEnd := st.bufEnd - st.bufCursor }, none) := by
        rw [fillBuffer, if_neg hA, hcop]
        simp only [hE, if_pos]
      rw [hfb]
      have hwinlen : ((st.buf.drop st.bufCursor).take (st.bufEnd - st.bufCursor)).length =
          st.bufEnd - st.bufCursor := by
        rw [List.length_take, List.length_drop]
        omega
      have hblen : ((st.buf.drop st.bufCursor).take (st.bufEnd - st.bufCursor) ++
          st.buf.drop (st.bufEnd - st.bufCursor)).length = st.buf.length := by
        rw [List.length_append, hwinlen, List.length_drop]
        omega
      have hwin2 : window { st with
          buf := (st.buf.drop st.bufCursor).take (st.bufEnd - st.bufCursor) ++
            st.buf.drop (st.bufEnd - st.bufCursor),
          bufCursor := 0, bufEnd := st.bufEnd - st.bufCursor } =
          s.take (st.bufEnd - st.bufCursor) := by
        simp only [window, List.drop_zero, Nat.sub_zero]
        rw [List.take_append_eq_append_take, hwinlen]
        simp only [Nat.sub_self, List.take_zero, List.append_nil]
        rw [List.take_of_length_le (le_of_eq hwinlen)]
        exact hwin
      refine ⟨rfl, ⟨by simpa [hblen] using hlen, by simp [wlen], by simp [hblen]; omega,
        ?_, ?_, ?_, ?_, hnf⟩, rfl, ?_, ?_⟩
      · simpa [wlen] using hwin2
      · simp [wlen]; omega
      · intro _; simp [wlen]; omega
      · intro hcontra; simp [hE] at hcontra
      · right; simp [wlen]; omega
      · simp only []
        constructor
        · intro h0
          have : s.length = 0 := by omega
          exact List.length_eq_zero.mp this
        · intro h0
          subst h0
          simp at hwl
          omega

/-- What accepted configurations guarantee about the chunker's size fields:
`minSize ≥ 64 ≥ 2`, `minSize < maxSize`, and `normalizeSize = averageSize ≥
minSize` (see `newChunker_shape`). `cut` and the machine lemmas need no more. -/
def GoodCfg (c : Chunker) : Prop :=
  2 ≤ c.minSize ∧ c.minSize < c.maxSize ∧ c.minSize ≤ c.normalizeSize

instance (c : Chunker) : Decidable (GoodCfg c) := by
  unfold GoodCfg
  infer_instance

theorem next_spec_nil (c : Chunker) (st : ChunkerState) (s : List Nat)
    (hmax1 : 1 ≤ c.maxSize) (hI : BufInv c st s) (hs : s = []) :
    next c st = (NextResult.eof, (fillBuffer c st).1) := by
  obtain ⟨he, hInv2, hsp, hdis, hiff⟩ := fillBuffer_spec c st s hmax1 hI
  rw [next]
  rcases hfb : fillBuffer c st with ⟨st1, err⟩
  rw [hfb] at he hiff
  simp only at he hiff
  subst he
  simp only [if_pos (hiff.mpr hs)]

theorem next_spec_cons (c : Chunker) (st : ChunkerState) (s : List Nat)
    (hG : GoodCfg c) (hI : BufInv c st s) (hs : s ≠ []) :
    next c st = (NextResult.chunk
        { Offset := st.streamPos, Length := (cut c s).1,
          Data := s.take (cut c s).1, Fingerprint := (cut c s).2 },
      { (fillBuffer c st).1 with
          bufCursor := (fillBuffer c st).1.bufCursor + (cut c s).1,
          streamPos := (fillBuffer c st).1.streamPos + (cut c s).1 }) ∧
      (fillBuffer c st).1.streamPos = st.streamPos ∧
      BufInv c { (fillBuffer c st).1 with
          bufCursor := (fillBuffer c st).1.bufCursor + (cut c s).1,
          streamPos := (fillBuffer c st).1.streamPos + (cut c s).1 }
        (s.drop (cut c s).1) := by
  obtain ⟨hg2, hg3, hg4⟩ := hG
  obtain ⟨he, hInv2, hsp, hdis, hiff⟩ := fillBuffer_spec c st s (by omega) hI
  obtain ⟨hlen2, hce2, hel2, hwin2, hws2, heof2, hneof2, hnf2⟩ := hInv2
  set st1 := (fillBuffer c st).1 with hst1
  have hend0 : ¬ st1.bufEnd = 0 := fun h0 => hs (hiff.mp h0)
  have hcuteq : cut c (window st1) = cut c s := by
    rcases hdis with hbig | hall
    · rw [hwin2]
      exact cut_congr_prefix c s (wlen st1) hbig hws2 hg3
    · rw [hwin2, hall, List.take_length]
  have hcb := cut_bounds c s hg2 hg3 hg4 hs
  have hlecut : (cut c s).1 ≤ wlen st1 := by
    rcases hdis with hbig | hall
    · have := hcb.2.2.1
      omega
    · have := hcb.2.1
      omega
  have hfb : fillBuffer c st = (st1, none) := by
    rcases hq : fillBuffer c st with ⟨a, b⟩
    rw [hq] at he
    simp only at he
    subst he
    rw [hst1, hq]
  have hdata : (st1.buf.drop st1.bufCursor).take (cut c s).1 = s.take (cut c s).1 := by
    have h1 : (st1.buf.drop st1.bufCursor).take (cut c s).1 =
        ((st1.buf.drop st1.bufCursor).take (wlen st1)).take (cut c s).1 := by
      rw [List.take_take, min_eq_left hlecut]
    have h2 : (st1.buf.drop st1.bufCursor).take (wlen st1) = s.take (wlen st1) := hwin2
    rw [h1, h2, List.take_take, min_eq_left hlecut]
  refine ⟨?_, hsp, ?_⟩
  · have hcuteq2 : cut c ((st1.buf.drop st1.bufCursor).take (st1.bufEnd - st1.bufCursor)) =
        cut c s := hcuteq
    rw [next, hfb]
    dsimp only
    rw [if_neg hend0, hcuteq2, hdata, hsp]
  · -- the invariant for the advanced state
    refine ⟨hlen2, ?_, hel2, ?_, ?_, ?_, ?_, hnf2⟩
    · show st1.bufCursor + (cut c s).1 ≤ st1.bufEnd
      have : wlen st1 = st1.bufEnd - st1.bufCursor := rfl
      omega
    · show (st1.buf.drop (st1.bufCursor + (cut c s).1)).take
          (st1.bufEnd - (st1.bufCursor + (cut c s).1)) =
        (s.drop (cut c s).1).take (st1.bufEnd - (st1.bufCursor + (cut c s).1))
      have hdd : st1.buf.drop (st1.bufCursor + (cut c s).1) =
          (st1.buf.drop st1.bufCursor).drop (cut c s).1 := by
        rw [List.drop_drop, Nat.add_comm]
      have harith : st1.bufEnd - (st1.bufCursor + (cut c s).1) =
          wlen st1 - (cut c s).1 := by
        have : wlen st1 = st1.bufEnd - st1.bufCursor := rfl
        omega
      rw [hdd, harith]
      have hdt : ((st1.buf.drop st1.bufCursor).drop (cut c s).1).take
          (wlen st1 - (cut c s).1) =
          ((st1.buf.drop st1.bufCursor).take (wlen st1)).drop (cut c s).1 := by
        rw [List.drop_take]
      have h2 : (st1.buf.drop st1.bufCursor).take (wlen st1) = s.take (wlen st1) := hwin2
      rw [hdt, h2, List.drop_take]
    · show st1.bufEnd - (st1.bufCursor + (cut c s).1) ≤ (s.drop (cut c s).1).length
      rw [List.length_drop]
      have : wlen st1 = st1.bufEnd - st1.bufCursor := rfl
      omega
    · intro hE
      show st1.bufEnd - (st1.bufCursor + (cut c s).1) = (s.drop (cut c s).1).length
      have h3 := heof2 hE
      rw [List.length_drop]
      have : wlen st1 = st1.bufEnd - st1.bufCursor := rfl
      omega
    · intro hE
      obtain ⟨hb, hc⟩ := hneof2 hE
      refine ⟨hb, ?_⟩
      show readerContent st1.reader = (s.drop (cut c s).1).drop
        (st1.bufEnd - (st1.bufCursor + (cut c s).1))
      rw [hc, List.drop_drop]
      congr 1
      have : wlen st1 = st1.bufEnd - st1.bufCursor := rfl
      omega

/-! ## The machine refines the logical chunk stream -/

theorem run_eq_chunksOf (c : Chunker) (hG : GoodCfg c) :
    ∀ fuel st s, BufInv c st s → s.length < fuel →
      run c fuel st = (chunksOf c fuel st.streamPos s, RunEnd.eof) := by
  intro fuel
  induction fuel with
  | zero => intro st s hI hf; omega
  | succ fuel ih =>
    intro st s hI hf
    by_cases hsnil : s = []
    · subst hsnil
      rw [run, next_spec_nil c st [] (by obtain ⟨h1, h2, h3⟩ := hG; omega) hI rfl]
      rfl
    · have hne : s ≠ [] := hsnil
      obtain ⟨hnext, hsp, hI2⟩ := next_spec_cons c st s hG hI hne
      rw [run, hnext]
      have hcb := cut_bounds c s (hG.1) (hG.2.1) (hG.2.2) hne
      have hlt2 : (s.drop (cut c s).1).length < fuel := by
        rw [List.length_drop]
        omega
      have hrec := ih _ _ hI2 hlt2
      dsimp only at hrec
      dsimp only
      rw [hrec]
      have hpos : ¬ s.isEmpty = true := by
        rw [List.isEmpty_iff]
        exact hne
      conv_rhs => rw [chunksOf]
      simp only [if_neg hpos]
      rw [hsp]

theorem chunksOf_nil (c : Chunker) (fuel pos : Nat) : chunksOf c fuel pos [] = [] := by
  rcases fuel with _ | fuel <;> rfl

theorem initState_inv (c : Chunker) (bufSize : Nat) (rd : Reader)
    (hbs : c.maxSize < bufSize) (hnf : noFail rd = true) :
    BufInv c (initState bufSize rd) (readerContent rd) := by
  refine ⟨?_, ?_, ?_, ?_, ?_, ?_, ?_, hnf⟩
  · simp [initState, hbs]
  · simp [initState]
  · simp [initState]
  · simp [initState, window, wlen]
  · simp [initState, wlen]
  · intro h
    simp [initState] at h
  · intro _
    simp [initState, wlen]

theorem reset_inv (c : Chunker) (st : ChunkerState) (rd : Reader)
    (hbs : c.maxSize < st.buf.length) (hnf : noFail rd = true) :
    BufInv c (reset st rd) (readerContent rd) := by
  refine ⟨?_, ?_, ?_, ?_, ?_, ?_, ?_, hnf⟩
  · simp [reset, hbs]
  · simp [reset]
  · simp [reset]
  · simp [reset, window, wlen]
  · simp [reset, wlen]
  · intro h
    simp [reset] at h
  · intro _
    simp [reset, wlen]

/-! ## Properties of the logical chunk stream -/

theorem chunksOf_join (c : Chunker) (hG : GoodCfg c) :
    ∀ fuel pos s, s.length < fuel →
      ((chunksOf c fuel pos s).map Chunk.Data).flatten = s := by
  intro fuel
  induction fuel with
  | zero => intro pos s h; omega
  | succ fuel ih =>
    intro pos s h
    by_cases hs : s = []
    · subst hs
      rfl
    · rw [chunksOf]
      rw [if_neg (by rw [List.isEmpty_iff]; exact hs)]
      have hcb := cut_bounds c s hG.1 hG.2.1 hG.2.2 hs
      simp only [List.map_cons, List.flatten_cons]
      rw [ih (pos + (cut c s).1) (s.drop (cut c s).1) (by rw [List.length_drop]; omega)]
      exact List.take_append_drop _ s

/-- Offsets chain correctly starting from `pos`. -/
def Chained : Nat → List Chunk → Prop
  | _, [] => True
  | pos, ch :: rest => ch.Offset = pos ∧ Chained (pos + ch.Length) rest

theorem chunksOf_chained (c : Chunker) :
    ∀ fuel pos s, Chained pos (chunksOf c fuel pos s) := by
  intro fuel
  induction fuel with
  | zero => intro pos s; trivial
  | succ fuel ih =>
    intro pos s
    by_cases hs : s = []
    · subst hs
      trivial
    · rw [chunksOf, if_neg (by rw [List.isEmpty_iff]; exact hs)]
      exact ⟨rfl, ih _ _⟩

theorem chained_getD (d : Chunk) :
    ∀ cs pos, Chained pos cs →
      (∀ i, i + 1 < cs.length →
        (cs.getD (i + 1) d).Offset = (cs.getD i d).Offset + (cs.getD i d).Length) := by
  intro cs
  induction cs with
  | nil => intro pos _ i hi; simp at hi
  | cons ch rest ih =>
    intro pos hch i hi
    rcases i with _ | i
    · rcases rest with _ | ⟨ch2, rest2⟩
      · simp at hi
      · obtain ⟨h1, h2, h3⟩ := hch
        simp only [List.getD_cons_succ, List.getD_cons_zero]
        rw [h1, h2]
    · exact ih (pos + ch.Length) hch.2 i (by simpa using hi)

theorem chained_head (pos : Nat) (ch : Chunk) (rest : List Chunk)
    (h : Chained pos (ch :: rest)) : ch.Offset = pos := h.1

theorem chunksOf_length_bounds (c : Chunker) (hG : GoodCfg c) :
    ∀ fuel pos s, ∀ ch ∈ chunksOf c fuel pos s,
      1 ≤ ch.Length ∧ ch.Length ≤ c.maxSize := by
  intro fuel
  induction fuel with
  | zero => intro pos s ch h; simp [chunksOf] at h
  | succ fuel ih =>
    intro pos s ch h
    by_cases hs : s = []
    · subst hs
      simp [chunksOf] at h
    · rw [chunksOf, if_neg (by rw [List.isEmpty_iff]; exact hs)] at h
      have hcb := cut_bounds c s hG.1 hG.2.1 hG.2.2 hs
      rcases List.mem_cons.mp h with h2 | h2
      · subst h2
        refine ⟨hcb.1, ?_⟩
        dsimp only
        omega
      · exact ih _ _ ch h2

theorem chunksOf_nonfinal_lower (c : Chunker) (hG : GoodCfg c) (d : Chunk) :
    ∀ fuel pos s, ∀ i, i + 1 < (chunksOf c fuel pos s).length →
      c.minSize - c.minSize % 2 ≤ ((chunksOf c fuel pos s).getD i d).Length := by
  intro fuel
  induction fuel with
  | zero => intro pos s i hi; simp [chunksOf] at hi
  | succ fuel ih =>
    intro pos s i hi
    by_cases hs : s = []
    · subst hs
      simp [chunksOf] at hi
    · rw [chunksOf, if_neg (by rw [List.isEmpty_iff]; exact hs)] at hi ⊢
      have hcb := cut_bounds c s hG.1 hG.2.1 hG.2.2 hs
      rcases i with _ | i
      · simp only [List.getD_cons_zero]
        -- the successor chunk exists, so the remainder is nonempty and the
        -- short-region path (which consumes everything) was not taken
        simp only [List.length_cons] at hi
        have hrest : chunksOf c fuel (pos + (cut c s).1) (s.drop (cut c s).1) ≠ [] := by
          intro hnil
          rw [hnil] at hi
          simp at hi
        have hdrop : s.drop (cut c s).1 ≠ [] := by
          intro hnil
          rw [hnil, chunksOf_nil] at hrest
          exact hrest rfl
        have hlt : (cut c s).1 < s.length := by
          by_contra hcon
          push_neg at hcon
          exact hdrop (List.drop_eq_nil_of_le hcon)
        have hminlt : c.minSize < s.length := by
          by_contra hcon
          push_neg at hcon
          have : cut c s = (s.length, 0) := by
            rw [cut, if_pos hcon]
          rw [this] at hlt
          simp at hlt
        have := hcb.2.2.2 hminlt
        -- still need: the cut is not the short path, i.e. length ≥ rounded minSize
        exact this
      · simp only [List.getD_cons_succ]
        exact ih _ _ i (by simpa using hi)

theorem chunksOf_short (c : Chunker) (fuel pos : Nat) (s : List Nat)
    (hs : s ≠ []) (hle : s.length ≤ c.minSize) :
    chunksOf c (fuel + 1) pos s =
      [{ Offset := pos, Length := s.length, Data := s, Fingerprint := 0 }] := by
  rw [chunksOf, if_neg (by rw [List.isEmpty_iff]; exact hs)]
  have hc : cut c s = (s.length, 0) := by rw [cut, if_pos hle]
  rw [hc]
  simp only [List.drop_length, chunksOf_nil, List.take_length]

/-! ## Error behaviour -/

theorem readLoop_noFail (r : Reader) (hnf : noFail r = true) :
    ∀ space, (∀ k, (readLoop r space).2.1 ≠ Stop.errStop k) ∧
      noFail (readLoop r space).2.2 = true := by
  have h := readLoop_spec r hnf
  intro space
  obtain ⟨h1, h2, h3, h4⟩ := h space
  refine ⟨?_, h4⟩
  intro k hk
  rw [h2] at hk
  by_cases hc : space ≤ (readerContent r).length <;> simp [hc] at hk

theorem fillBuffer_noFail (c : Chunker) (st : ChunkerState)
    (hnf : noFail st.reader = true) :
    (fillBuffer c st).2 = none ∧ noFail (fillBuffer c st).1.reader = true := by
  rw [fillBuffer]
  by_cases hA : st.bufEnd - st.bufCursor ≥ c.maxSize
  · rw [if_pos hA]
    exact ⟨rfl, hnf⟩
  · rw [if_neg hA]
    by_cases hE : st.readerEOF = true
    · rw [hE, if_pos rfl]
      exact ⟨rfl, hnf⟩
    · rw [Bool.not_eq_true] at hE
      rw [hE]
      have hrl := readLoop_noFail st.reader hnf (st.buf.length - (st.bufEnd - st.bufCursor))
      rw [readFull]
      rcases hq : readLoop st.reader (st.buf.length - (st.bufEnd - st.bufCursor))
        with ⟨bs, stop, r2⟩
      rw [hq] at hrl
      simp only at hrl
      rcases stop with _ | _ | k
      · exact ⟨rfl, hrl.2⟩
      · dsimp only
        by_cases hz : bs.length > 0
        · rw [if_pos hz]
          exact ⟨rfl, hrl.2⟩
        · rw [if_neg hz]
          exact ⟨rfl, hrl.2⟩
      · exact absurd rfl (hrl.1 k)

theorem run_noFail_no_err (c : Chunker) :
    ∀ fuel st, noFail st.reader = true → ∀ k, (run c fuel st).2 ≠ RunEnd.err k := by
  intro fuel
  induction fuel with
  | zero =>
    intro st hnf k h
    simp [run] at h
  | succ fuel ih =>
    intro st hnf k
    obtain ⟨hfe, hfr⟩ := fillBuffer_noFail c st hnf
    rw [run, next]
    rcases hq : fillBuffer c st with ⟨st1, err⟩
    rw [hq] at hfe hfr
    simp only at hfe hfr
    subst hfe
    by_cases h0 : st1.bufEnd = 0
    · simp only [if_pos h0]
      intro h
      simp at h
    · simp only [if_neg h0]
      have := ih { st1 with
        bufCursor := st1.bufCursor +
          (cut c ((st1.buf.drop st1.bufCursor).take (st1.bufEnd - st1.bufCursor))).1,
        streamPos := st1.streamPos +
          (cut c ((st1.buf.drop st1.bufCursor).take (st1.bufEnd - st1.bufCursor))).1 } hfr k
      simpa using this

theorem readLoop_fail_head (k : Nat) (rest : Reader) (space : Nat) (hsp : 0 < space) :
    readLoop (ReadEvent.fail k :: rest) space = ([], Stop.errStop k, rest) := by
  rcases space with _ | sp
  · omega
  · rfl

theorem next_fail_head (c : Chunker) (st : ChunkerState) (k : Nat) (rest : Reader)
    (hr : st.reader = ReadEvent.fail k :: rest) (hE : st.readerEOF = false)
    (hA : st.bufEnd - st.bufCursor < c.maxSize) (hbl : c.maxSize < st.buf.length) :
    ∃ st2, next c st = (NextResult.err k, st2) ∧ st2.reader = rest := by
  have hsp : 0 < st.buf.length - (st.bufEnd - st.bufCursor) := by omega
  have hrf : readFull (ReadEvent.fail k :: rest) (st.buf.length - (st.bufEnd - st.bufCursor)) =
      ([], some (ReadErr.other k), rest) := by
    rw [readFull, readLoop_fail_head k rest _ hsp]
  have hfb2 : (fillBuffer c st).2 = some k ∧ (fillBuffer c st).1.reader = rest := by
    rw [fillBuffer, if_neg (by omega : ¬ st.bufEnd - st.bufCursor ≥ c.maxSize), hE, hr, hrf]
    exact ⟨rfl, rfl⟩
  refine ⟨(fillBuffer c st).1, ?_, hfb2.2⟩
  rw [next]
  rcases hq : fillBuffer c st with ⟨st1, err⟩
  rw [hq] at hfb2
  simp only at hfb2
  rw [hfb2.1]

/-! ## Arithmetic facts for validation and seeding -/

theorem exists_testBit_of_pos (m : Nat) (h : 0 < m) : ∃ j, m.testBit j = true := by
  by_contra hc
  push_neg at hc
  have : m = 0 := by
    apply Nat.eq_of_testBit_eq
    intro i
    rw [Nat.zero_testBit]
    simpa using hc i
  omega

theorem pow_two_of_and_pred_eq_zero :
    ∀ n, 0 < n → n &&& (n - 1) = 0 → ∃ k, n = 2 ^ k := by
  intro n
  induction n using Nat.strong_induction_on with
  | _ n ih =>
    intro hpos hand
    by_cases hpar : n % 2 = 1
    · -- odd: must be 1
      rcases Nat.eq_or_lt_of_le hpos with h1 | h1
      · exact ⟨0, by omega⟩
      · exfalso
        have hm : 0 < n / 2 := by omega
        obtain ⟨j, hj⟩ := exists_testBit_of_pos (n / 2) hm
        have hbn : n.testBit (j + 1) = true := by
          rw [Nat.testBit_succ]
          exact hj
        have hbn1 : (n - 1).testBit (j + 1) = true := by
          rw [Nat.testBit_succ]
          have : (n - 1) / 2 = n / 2 := by omega
          rw [this]
          exact hj
        have : (n &&& (n - 1)).testBit (j + 1) = true := by
          rw [Nat.testBit_and, hbn, hbn1]
          rfl
        rw [hand, Nat.zero_testBit] at this
        cases this
    · -- even: halve and recurse
      have hm : 0 < n / 2 := by omega
      have hand2 : n / 2 &&& (n / 2 - 1) = 0 := by
        apply Nat.eq_of_testBit_eq
        intro i
        rw [Nat.zero_testBit, Nat.testBit_and]
        by_contra hc
        have hb1 : (n / 2).testBit i = true := by
          rcases hb : (n / 2).testBit i with _ | _
          · rw [hb] at hc
            simp at hc
          · rfl
        have hb2 : (n / 2 - 1).testBit i = true := by
          rcases hb : (n / 2 - 1).testBit i with _ | _
          · rw [hb, hb1] at hc
            simp at hc
          · rfl
        have hbn : n.testBit (i + 1) = true := by
          rw [Nat.testBit_succ]
          exact hb1
        have hbn1 : (n - 1).testBit (i + 1) = true := by
          rw [Nat.testBit_succ]
          have : (n - 1) / 2 = n / 2 - 1 := by omega
          rw [this]
          exact hb2
        have hco : (n &&& (n - 1)).testBit (i + 1) = true := by
          rw [Nat.testBit_and, hbn, hbn1]
          rfl
        rw [hand, Nat.zero_testBit] at hco
        cases hco
      obtain ⟨k, hk⟩ := ih (n / 2) (by omega) hm hand2
      exact ⟨k + 1, by rw [Nat.pow_succ]; omega⟩

theorem and_pred_eq_zero_of_pow_two (k : Nat) : (2 ^ k) &&& (2 ^ k - 1) = 0 := by
  rw [Nat.and_pow_two_sub_one_eq_mod]
  exact Nat.mod_self _

theorem trailingZerosGo_pow (k : Nat) :
    ∀ fuel, k < fuel → trailingZerosGo fuel (2 ^ k) = k := by
  induction k with
  | zero =>
    intro fuel hf
    rcases fuel with _ | f
    · omega
    · rw [trailingZerosGo, if_pos (by omega : (2 : Nat) ^ 0 % 2 = 1 ∨ (2 : Nat) ^ 0 = 0)]
  | succ k ih =>
    intro fuel hf
    rcases fuel with _ | f
    · omega
    · have h2 : (2 : Nat) ^ (k + 1) % 2 = 0 := by
        rw [Nat.pow_succ, Nat.mul_mod_left]
      have h0 : (2 : Nat) ^ (k + 1) ≠ 0 := by positivity
      rw [trailingZerosGo, if_neg (by omega)]
      have hdiv : (2 : Nat) ^ (k + 1) / 2 = 2 ^ k := by
        rw [Nat.pow_succ, Nat.mul_div_cancel]
        omega
      rw [hdiv, ih f (by omega)]

theorem trailingZeros_pow (k : Nat) : trailingZeros (2 ^ k) = k := by
  rw [trailingZeros, if_neg (by positivity : ¬ (2 : Nat) ^ k = 0)]
  exact trailingZerosGo_pow k (2 ^ k) (Nat.lt_two_pow k)

theorem w64_xor_shiftLeft (a s : Nat) :
    w64 ((a ^^^ s) <<< 1) = w64 (a <<< 1) ^^^ w64 (s <<< 1) := by
  unfold w64
  apply Nat.eq_of_testBit_eq
  intro i
  simp only [Nat.testBit_mod_two_pow, Nat.testBit_xor, Nat.testBit_shiftLeft]
  by_cases h64 : i < 64
  · by_cases h1 : 1 ≤ i
    · simp [h64, h1]
    · simp [h64, h1]
  · simp [h64]

/-! ## Validation characterization -/

theorem validate_ok_mp (o : options) (h : o.validate = Except.ok ()) :
    absoluteMinSize ≤ o.averageSize ∧ o.averageSize ≤ absoluteMaxSize ∧
      0 < o.averageSize ∧ (o.averageSize.toNat &&& (o.averageSize.toNat - 1)) = 0 ∧
      absoluteMinSize ≤ o.minSize ∧ o.minSize ≤ absoluteMaxSize ∧
      absoluteMinSize ≤ o.maxSize ∧ o.maxSize ≤ absoluteMaxSize ∧
      o.minSize < o.maxSize ∧ o.minSize ≤ o.averageSize ∧ o.averageSize ≤ o.maxSize ∧
      (o.disableNormalization = false → 0 ≤ o.normalization ∧ o.normalization ≤ 3) ∧
      o.maxSize < o.bufSize := by
  unfold options.validate at h
  split_ifs at h with h1 h2 h3 h4 h5 h6 h7 h8
  push_neg at h1 h2 h3 h4 h5 h6 h8
  refine ⟨h1.1, h1.2, h2.1, h2.2, h3.1, h3.2, h4.1, h4.2, by omega, by omega, by omega, ?_,
    by omega⟩
  · intro hd
    by_contra hc
    push_neg at hc
    apply h7
    refine ⟨by rw [hd]; rfl, ?_⟩
    omega

theorem validate_ok_mpr (o : options)
    (h1 : absoluteMinSize ≤ o.averageSize) (h2 : o.averageSize ≤ absoluteMaxSize)
    (h4 : (o.averageSize.toNat &&& (o.averageSize.toNat - 1)) = 0)
    (h5 : absoluteMinSize ≤ o.minSize) (h6 : o.minSize ≤ absoluteMaxSize)
    (h7 : absoluteMinSize ≤ o.maxSize) (h8 : o.maxSize ≤ absoluteMaxSize)
    (h9 : o.minSize < o.maxSize) (h10 : o.minSize ≤ o.averageSize)
    (h11 : o.averageSize ≤ o.maxSize)
    (h12 : o.disableNormalization = false → 0 ≤ o.normalization ∧ o.normalization ≤ 3)
    (h13 : o.maxSize < o.bufSize) :
    o.validate = Except.ok () := by
  have hmin64 : (64 : Int) ≤ o.averageSize := h1
  unfold options.validate
  rw [if_neg (by unfold absoluteMinSize absoluteMaxSize at *; omega),
    if_neg (by omega),
    if_neg (by unfold absoluteMinSize absoluteMaxSize at *; omega),
    if_neg (by unfold absoluteMinSize absoluteMaxSize at *; omega),
    if_neg (by omega), if_neg (by omega), if_neg ?_, if_neg (by omega)]
  rcases hd : o.disableNormalization with _ | _
  · have := h12 hd
    simp [hd]
    omega
  · simp [hd]

theorem newChunker_ok_iff_raw (averageSize : Int) (opts : List (options → options)) :
    isOkE (newChunker averageSize opts) = true ↔
      ((applyOpts { averageSize := averageSize } opts).setDefaults.validate = Except.ok () ∧
        ¬ (trailingZeros (applyOpts { averageSize := averageSize }
              opts).setDefaults.averageSize.toNat +
            (if (applyOpts { averageSize := averageSize } opts).setDefaults.disableNormalization
              then 0
              else (applyOpts { averageSize := averageSize }
                opts).setDefaults.normalization.toNat) > 25 ∨
          trailingZeros (applyOpts { averageSize := averageSize }
              opts).setDefaults.averageSize.toNat -
            (if (applyOpts { averageSize := averageSize } opts).setDefaults.disableNormalization
              then 0
              else (applyOpts { averageSize := averageSize }
                opts).setDefaults.normalization.toNat) < 5)) := by
  rw [newChunker]
  rcases hv : (applyOpts { averageSize := averageSize } opts).setDefaults.validate with e | u
  · simp only [isOkE]
    constructor
    · intro h
      cases h
    · intro ⟨ha, _⟩
      cases ha
  · cases u
    by_cases hb : trailingZeros (applyOpts { averageSize := averageSize }
          opts).setDefaults.averageSize.toNat +
        (if (applyOpts { averageSize := averageSize } opts).setDefaults.disableNormalization
          then 0
          else (applyOpts { averageSize := averageSize }
            opts).setDefaults.normalization.toNat) > 25 ∨
        trailingZeros (applyOpts { averageSize := averageSize }
            opts).setDefaults.averageSize.toNat -
          (if (applyOpts { averageSize := averageSize } opts).setDefaults.disableNormalization
            then 0
            else (applyOpts { averageSize := averageSize }
              opts).setDefaults.normalization.toNat) < 5
    · rw [if_pos hb]
      simp only [isOkE]
      constructor
      · intro h
        cases h
      · intro ⟨_, hc⟩
        exact absurd hb hc
    · rw [if_neg hb]
      simp only [isOkE]
      constructor
      · intro _
        exact ⟨by simp [hv], hb⟩
      · intro _
        trivial

/-- Every chunker `NewChunker` actually returns satisfies the size-field shape
`GoodCfg`, and its buffer is strictly larger than `maxSize`. -/
theorem newChunker_shape (averageSize : Int) (opts : List (options → options))
    (cfg : Chunker) (bufSize : Nat)
    (h : newChunker averageSize opts = Except.ok (cfg, bufSize)) :
    GoodCfg cfg ∧ cfg.maxSize < bufSize ∧
      cfg.normalizeSize = (applyOpts { averageSize := averageSize }
        opts).setDefaults.averageSize.toNat ∧
      64 ≤ cfg.minSize := by
  rw [newChunker] at h
  rcases hv : (applyOpts { averageSize := averageSize } opts).setDefaults.validate with e | u
  · rw [hv] at h
    dsimp only at h
    cases h
  · rw [hv] at h
    cases u
    dsimp only at h
    by_cases hb : trailingZeros (applyOpts { averageSize := averageSize }
          opts).setDefaults.averageSize.toNat +
        (if (applyOpts { averageSize := averageSize } opts).setDefaults.disableNormalization
          then 0
          else (applyOpts { averageSize := averageSize }
            opts).setDefaults.normalization.toNat) > 25 ∨
        trailingZeros (applyOpts { averageSize := averageSize }
            opts).setDefaults.averageSize.toNat -
          (if (applyOpts { averageSize := averageSize } opts).setDefaults.disableNormalization
            then 0
            else (applyOpts { averageSize := averageSize }
              opts).setDefaults.normalization.toNat) < 5
    · rw [if_pos hb] at h
      cases h
    rw [if_neg hb] at h
    obtain ⟨hm1, hm2, hm3, hm4, hm5, hm6, hm7, hm8, hm9, hm10, hm11, hm12, hm13⟩ :=
      validate_ok_mp _ hv
    injection h with h2
    injection h2 with hcfg hbs
    subst hcfg
    subst hbs
    have k1 : (64 : Int) ≤ (applyOpts { averageSize := averageSize }
        opts).setDefaults.minSize := hm5
    have k2 : (64 : Int) ≤ (applyOpts { averageSize := averageSize }
        opts).setDefaults.averageSize := hm1
    have k3 : (64 : Int) ≤ (applyOpts { averageSize := averageSize }
        opts).setDefaults.maxSize := hm7
    refine ⟨?_, ?_, rfl, ?_⟩
    · unfold GoodCfg
      dsimp only
      omega
    · dsimp only
      omega
    · dsimp only
      omega

/-! ## Concrete instances used by the claim witnesses and counterexamples -/

/-- The chunker `newChunker 256 []` (all defaults) returns, spelled out. -/
def cfg256 : Chunker :=
  { minSize := 64, maxSize := 1024, normalizeSize := 256,
    maskSmall := masks.getD 10 0, maskLarge := masks.getD 6 0,
    maskSmallShifted := w64 (masks.getD 10 0 <<< 1),
    maskLargeShifted := w64 (masks.getD 6 0 <<< 1),
    gear := seededGear 0, gearShifted := seededGearShifted 0 }

theorem newChunker_256_default : newChunker 256 [] = Except.ok (cfg256, 2048) := rfl

/-- The chunker the accepted odd configuration `minSize = 65` produces. -/
def cfgOdd : Chunker :=
  { minSize := 65, maxSize := 128, normalizeSize := 128,
    maskSmall := masks.getD 7 0, maskLarge := masks.getD 7 0,
    maskSmallShifted := w64 (masks.getD 7 0 <<< 1),
    maskLargeShifted := w64 (masks.getD 7 0 <<< 1),
    gear := seededGear 0, gearShifted := seededGearShifted 0 }

/-- 66 bytes whose first even-position mask test under `cfgOdd` fires at 64. -/
def dataOdd : List Nat := List.replicate 64 0 ++ [11, 0]

/-- A mid-stream, stale chunker state (cursor inside the buffer, nonzero
stream position, exhaustion flag set, a leftover reader), used to exercise
`reset`. -/
def staleState : ChunkerState :=
  { buf := List.replicate 2048 9, bufCursor := 17, bufEnd := 400,
    streamPos := 123, readerEOF := true, reader := [ReadEvent.give [9]] }

/-! ## Bridging `trailingZeros` with `Nat.log2` on powers of two -/

theorem trailingZeros_eq_log2_of_pow2 (n : Nat) (h0 : 0 < n)
    (h : n &&& (n - 1) = 0) : trailingZeros n = Nat.log2 n := by
  obtain ⟨k, rfl⟩ := pow_two_of_and_pred_eq_zero n h0 h
  rw [trailingZeros_pow, Nat.log2_eq_log_two, Nat.log_pow (by norm_num : 1 < 2)]

/-- Modelled from the claim text of C7, with the strict `minSize <
averageSize` amended to `minSize ≤ averageSize` (the code accepts equality):
the resolved options are acceptable. -/
def claimAccepts (o : options) : Prop :=
  absoluteMinSize ≤ o.averageSize ∧ o.averageSize ≤ absoluteMaxSize ∧
  0 < o.averageSize ∧ (o.averageSize.toNat &&& (o.averageSize.toNat - 1)) = 0 ∧
  absoluteMinSize ≤ o.minSize ∧ o.minSize ≤ absoluteMaxSize ∧
  absoluteMinSize ≤ o.maxSize ∧ o.maxSize ≤ absoluteMaxSize ∧
  o.minSize ≤ o.averageSize ∧ o.averageSize ≤ o.maxSize ∧
  o.minSize < o.maxSize ∧ o.maxSize < o.bufSize ∧
  (o.disableNormalization = false → 0 ≤ o.normalization ∧ o.normalization ≤ 3) ∧
  5 + (if o.disableNormalization then 0 else o.normalization.toNat) ≤
    Nat.log2 o.averageSize.toNat ∧
  Nat.log2 o.averageSize.toNat +
    (if o.disableNormalization then 0 else o.normalization.toNat) ≤ 25

theorem accepts_iff_ok (o : options) :
    (o.validate = Except.ok () ∧
      ¬ (trailingZeros o.averageSize.toNat +
            (if o.disableNormalization then 0 else o.normalization.toNat) > 25 ∨
          trailingZeros o.averageSize.toNat -
            (if o.disableNormalization then 0 else o.normalization.toNat) < 5)) ↔
      claimAccepts o := by
  constructor
  · rintro ⟨hv, hb⟩
    obtain ⟨hm1, hm2, hm3, hm4, hm5, hm6, hm7, hm8, hm9, hm10, hm11, hm12, hm13⟩ :=
      validate_ok_mp o hv
    push_neg at hb
    have hposn : 0 < o.averageSize.toNat := by omega
    have hlog := trailingZeros_eq_log2_of_pow2 o.averageSize.toNat hposn hm4
    refine ⟨hm1, hm2, hm3, hm4, hm5, hm6, hm7, hm8, hm10, hm11, hm9, hm13, hm12, ?_, ?_⟩
    · rw [← hlog]
      omega
    · rw [← hlog]
      omega
  · rintro ⟨h1, h2, h3, h4, h5, h6, h7, h8, h9, h10, h11, h12, h13, h14, h15⟩
    have hposn : 0 < o.averageSize.toNat := by omega
    have hlog := trailingZeros_eq_log2_of_pow2 o.averageSize.toNat hposn h4
    refine ⟨validate_ok_mpr o h1 h2 h4 h5 h6 h7 h8 h11 h9 h10 h13 h12, ?_⟩
    rw [hlog]
    omega

/-! ## The claims -/

/-- Claim C1: for every byte region strictly longer than `minSize` — under the
configuration shape `NewChunker` always guarantees, `minSize ≤ normalizeSize`
and `minSize < maxSize` — `Chunker.cut` returns exactly the result of the
two-phase reference algorithm `cutRef` written from the specification text:
`maxBoundary = min(len, maxSize)`, `normalizeBoundary = min(maxBoundary,
normalizeSize)`, boundaries rounded down to even, a pair scan updating
`fingerprint = (fingerprint <<< 2) + gearShifted[b]` (boundary at `i` if the
shifted mask test fires) then `fingerprint + gear[b]` (boundary at `i + 1` if
the unshifted test fires), small masks before the rounded normalize boundary
and large masks from there; if no test fires, a cut of length `maxBoundary`
(unrounded) with the accumulated fingerprint. -/
theorem claim_C1 (c : Chunker) (data : List Nat)
    (hlen : c.minSize < data.length) (hnorm : c.minSize ≤ c.normalizeSize)
    (hmax : c.minSize < c.maxSize) :
    cut c data = cutRef c data := by
  have hle : ¬ data.length ≤ c.minSize := by omega
  simp only [cut, cutRef, if_neg hle]
  set maxB := min data.length c.maxSize with hmaxB
  set normB := min maxB c.normalizeSize with hnormB
  have hmb3 : c.minSize + 1 ≤ maxB := le_min (by omega) hmax
  have hnb1 : normB ≤ maxB := min_le_left _ _
  have hnb2 : c.minSize ≤ normB := le_min (by omega) hnorm
  clear_value maxB normB
  set sStart := c.minSize - c.minSize % 2 with hsStart
  set nAt := normB - normB % 2 with hnAt
  set sEnd := maxB - maxB % 2 with hsEnd
  have hsplit := refLoop_split c data nAt (nAt - sStart) (sEnd - nAt) sStart 0
    (by omega) (by omega)
  have harr : sEnd - sStart = (nAt - sStart) + (sEnd - nAt) := by omega
  rw [harr, hsplit]
  have hup : sStart + (nAt - sStart) = nAt := by omega
  rw [hup]
  show (match scanPhase c.gear c.gearShifted c.maskSmallShifted c.maskSmall data nAt sStart 0 with
    | Sum.inl r => r
    | Sum.inr fp =>
      match scanPhase c.gear c.gearShifted c.maskLargeShifted c.maskLarge data sEnd nAt fp with
      | Sum.inl r => r
      | Sum.inr fp2 => (maxB, fp2)) = _
  unfold scanPhase
  rcases hA : scanGo c.gear c.gearShifted c.maskSmallShifted c.maskSmall data
      (nAt - sStart) sStart 0 with r | fp
  · rfl
  · rcases hB : scanGo c.gear c.gearShifted c.maskLargeShifted c.maskLarge data
        (sEnd - nAt) nAt fp with r | fp2 <;> rfl

/-- Witness for `claim_C1`: the default chunker on a 70-byte region. -/
theorem claim_C1_witness :
    cut cfg256 (List.replicate 70 3) = cutRef cfg256 (List.replicate 70 3) :=
  claim_C1 cfg256 (List.replicate 70 3) (by decide) (by decide) (by decide)

/-- Claim C7 (amended: the code accepts `minSize = averageSize`, so the strict
`minSize < averageSize` of the claim is weakened to `minSize ≤ averageSize`):
`NewChunker` returns a chunker rather than an error exactly when the resolved
configuration — after applying the option overrides and filling defaults —
satisfies `minSize ≤ averageSize ≤ maxSize`, `minSize < maxSize`,
`maxSize < bufferSize`, `averageSize` a power of two, `averageSize`,
`minSize`, `maxSize` all within 64 B to 1 GiB, normalization in `{0, 1, 2, 3}`
when enabled, and `log2 averageSize ± normalization` within the mask-table
range `[5, 25]`; on any violation it returns an error and no chunker. -/
theorem claim_C7 (averageSize : Int) (opts : List (options → options)) :
    isOkE (newChunker averageSize opts) = true ↔
      claimAccepts (applyOpts { averageSize := averageSize } opts).setDefaults := by
  rw [newChunker_ok_iff_raw]
  exact accepts_iff_ok _

/-- Counterexample to claim C7 as stated: `newChunker 128 [WithMinSize 128]`
resolves to `minSize = averageSize = 128` — violating the claim's strict
`minSize < averageSize` — yet is accepted. -/
theorem claim_C7_counterexample :
    isOkE (newChunker 128 [WithMinSize 128]) = true ∧
      ¬ ((applyOpts { averageSize := 128 } [WithMinSize 128]).setDefaults.minSize <
        (applyOpts { averageSize := 128 } [WithMinSize 128]).setDefaults.averageSize) := by
  refine ⟨rfl, ?_⟩
  decide

/-- Claim C10: for every seed (any natural number; a `uint64` in the source)
and every byte value `b`, the seeded shifted gear entry equals the seeded base
entry shifted left one bit modulo `2^64`; equivalently, the shift distributes
over the seeding xor: `(gear[b] ^^^ seed) <<< 1 = (gear[b] <<< 1) ^^^
(seed <<< 1)` modulo `2^64`, so the two-byte-per-iteration recurrence stays
consistent with the underlying gear hash under any seed. -/
theorem claim_C10 (seed b : Nat) :
    seededGearShifted seed b = w64 (seededGear seed b <<< 1) ∧
    w64 ((gear b ^^^ seed) <<< 1) = w64 (gear b <<< 1) ^^^ w64 (seed <<< 1) := by
  refine ⟨?_, w64_xor_shiftLeft (gear b) seed⟩
  by_cases h0 : seed = 0
  · subst h0
    simp [seededGearShifted, seededGear, gearShifted]
  · simp only [seededGearShifted, seededGear, if_neg h0]
    rw [w64_xor_shiftLeft]
    rfl

/-- Claim C2: for every finite input stream (the empty stream included) and
every configuration `NewChunker` accepts, concatenating the `Data` fields of
the chunks returned by successive `Next` calls, in order, until end-of-stream
reproduces the original input bytes exactly; the calls end in the
end-of-stream sentinel, and the empty stream produces zero chunks. -/
theorem claim_C2 (averageSize : Int) (opts : List (options → options))
    (cfg : Chunker) (bufSize : Nat) (rd : Reader) (fuel : Nat)
    (hok : newChunker averageSize opts = Except.ok (cfg, bufSize))
    (hnf : noFail rd = true)
    (hfuel : (readerContent rd).length < fuel) :
    (((run cfg fuel (initState bufSize rd)).1.map Chunk.Data).flatten
        = readerContent rd ∧
      (run cfg fuel (initState bufSize rd)).2 = RunEnd.eof) ∧
      (readerContent rd = [] → (run cfg fuel (initState bufSize rd)).1 = []) := by
  obtain ⟨hG, hbs, hnorm, hmin⟩ := newChunker_shape averageSize opts cfg bufSize hok
  have hI := initState_inv cfg bufSize rd hbs hnf
  have hrun := run_eq_chunksOf cfg hG fuel (initState bufSize rd) (readerContent rd) hI hfuel
  have hsp0 : (initState bufSize rd).streamPos = 0 := rfl
  rw [hsp0] at hrun
  have hfst : (run cfg fuel (initState bufSize rd)).1
      = chunksOf cfg fuel 0 (readerContent rd) := by rw [hrun]
  have hsnd : (run cfg fuel (initState bufSize rd)).2 = RunEnd.eof := by rw [hrun]
  refine ⟨⟨?_, hsnd⟩, ?_⟩
  · rw [hfst]
    exact chunksOf_join cfg hG fuel 0 (readerContent rd) hfuel
  · intro hnil
    rw [hfst, hnil, chunksOf_nil]

/-- Witness for `claim_C2`: the default chunker over a three-byte stream. -/
theorem claim_C2_witness :
    (((run cfg256 4 (initState 2048 [ReadEvent.give [1, 2, 3]])).1.map
          Chunk.Data).flatten
        = readerContent [ReadEvent.give [1, 2, 3]] ∧
      (run cfg256 4 (initState 2048 [ReadEvent.give [1, 2, 3]])).2 = RunEnd.eof) ∧
      (readerContent [ReadEvent.give [1, 2, 3]] = [] →
        (run cfg256 4 (initState 2048 [ReadEvent.give [1, 2, 3]])).1 = []) :=
  claim_C2 256 [] cfg256 2048 [ReadEvent.give [1, 2, 3]] 4 rfl rfl (by decide)

/-- Claim C3 (amended: with an odd `minSize` the scan starts at the
rounded-down-to-even position `minSize - minSize % 2`, so a NON-final chunk of
length `minSize - 1` is possible; the sound lower bound for non-final chunks
is the rounded `minSize`): for every accepted configuration and input stream,
every chunk satisfies `1 ≤ Length ≤ maxSize`, and every non-final chunk
satisfies `minSize - minSize % 2 ≤ Length`. -/
theorem claim_C3 (averageSize : Int) (opts : List (options → options))
    (cfg : Chunker) (bufSize : Nat) (rd : Reader) (fuel : Nat) (d : Chunk)
    (hok : newChunker averageSize opts = Except.ok (cfg, bufSize))
    (hnf : noFail rd = true)
    (hfuel : (readerContent rd).length < fuel) :
    (∀ ch ∈ (run cfg fuel (initState bufSize rd)).1,
        1 ≤ ch.Length ∧ ch.Length ≤ cfg.maxSize) ∧
    (∀ i, i + 1 < (run cfg fuel (initState bufSize rd)).1.length →
        cfg.minSize - cfg.minSize % 2 ≤
          ((run cfg fuel (initState bufSize rd)).1.getD i d).Length) := by
  obtain ⟨hG, hbs, hnorm, hmin⟩ := newChunker_shape averageSize opts cfg bufSize hok
  have hI := initState_inv cfg bufSize rd hbs hnf
  have hrun := run_eq_chunksOf cfg hG fuel (initState bufSize rd) (readerContent rd) hI hfuel
  have hsp0 : (initState bufSize rd).streamPos = 0 := rfl
  rw [hsp0] at hrun
  have hfst : (run cfg fuel (initState bufSize rd)).1
      = chunksOf cfg fuel 0 (readerContent rd) := by rw [hrun]
  constructor
  · simp only [hfst]
    exact chunksOf_length_bounds cfg hG fuel 0 (readerContent rd)
  · simp only [hfst]
    exact chunksOf_nonfinal_lower cfg hG d fuel 0 (readerContent rd)

/-- Witness for `claim_C3` at the default chunker over a three-byte stream. -/
theorem claim_C3_witness :
    (∀ ch ∈ (run cfg256 4 (initState 2048 [ReadEvent.give [1, 2, 3]])).1,
        1 ≤ ch.Length ∧ ch.Length ≤ cfg256.maxSize) ∧
    (∀ i, i + 1 < (run cfg256 4 (initState 2048 [ReadEvent.give [1, 2, 3]])).1.length →
        cfg256.minSize - cfg256.minSize % 2 ≤
          ((run cfg256 4 (initState 2048 [ReadEvent.give [1, 2, 3]])).1.getD i
            ⟨0, 0, [], 0⟩).Length) :=
  claim_C3 256 [] cfg256 2048 [ReadEvent.give [1, 2, 3]] 4 ⟨0, 0, [], 0⟩ rfl rfl
    (by decide)

set_option maxRecDepth 4000 in
/-- Counterexample to claim C3 as stated: the configuration
`averageSize = 128`, `minSize = 65` (odd), `maxSize = 128`, normalization
disabled, buffer 129, is accepted by `NewChunker`, yet on a 66-byte stream the
machine produces a NON-final chunk of length 64, strictly below `minSize`. -/
theorem claim_C3_counterexample :
    newChunker 128 [WithNormalization 0, WithMinSize 65, WithMaxSize 128,
        WithBufferSize 129] = Except.ok (cfgOdd, 129) ∧
    (run cfgOdd 5 (initState 129 [ReadEvent.give dataOdd])).2 = RunEnd.eof ∧
    (run cfgOdd 5 (initState 129 [ReadEvent.give dataOdd])).1.map
        (fun ch => (ch.Offset, ch.Length)) = [(0, 64), (64, 2)] ∧
    64 < cfgOdd.minSize := by
  refine ⟨rfl, ?_, ?_, by decide⟩
  · decide
  · decide

/-- Claim C4: two runs of the same accepted configuration over sources
delivering the same underlying byte content produce identical sequences of
`(Offset, Length, Fingerprint)`, regardless of how each source partitions the
content across individual reads. -/
theorem claim_C4 (averageSize : Int) (opts : List (options → options))
    (cfg : Chunker) (bufSize : Nat) (rd1 rd2 : Reader) (fuel : Nat)
    (hok : newChunker averageSize opts = Except.ok (cfg, bufSize))
    (hnf1 : noFail rd1 = true) (hnf2 : noFail rd2 = true)
    (hsame : readerContent rd1 = readerContent rd2)
    (hfuel : (readerContent rd1).length < fuel) :
    (run cfg fuel (initState bufSize rd1)).1.map
        (fun ch => (ch.Offset, ch.Length, ch.Fingerprint)) =
      (run cfg fuel (initState bufSize rd2)).1.map
        (fun ch => (ch.Offset, ch.Length, ch.Fingerprint)) := by
  obtain ⟨hG, hbs, hnorm, hmin⟩ := newChunker_shape averageSize opts cfg bufSize hok
  have hrun1 := run_eq_chunksOf cfg hG fuel (initState bufSize rd1) (readerContent rd1)
    (initState_inv cfg bufSize rd1 hbs hnf1) hfuel
  have hrun2 := run_eq_chunksOf cfg hG fuel (initState bufSize rd2) (readerContent rd2)
    (initState_inv cfg bufSize rd2 hbs hnf2) (by rw [← hsame]; exact hfuel)
  have hsp1 : (initState bufSize rd1).streamPos = 0 := rfl
  have hsp2 : (initState bufSize rd2).streamPos = 0 := rfl
  rw [hsp1] at hrun1
  rw [hsp2] at hrun2
  have hfst1 : (run cfg fuel (initState bufSize rd1)).1
      = chunksOf cfg fuel 0 (readerContent rd1) := by rw [hrun1]
  have hfst2 : (run cfg fuel (initState bufSize rd2)).1
      = chunksOf cfg fuel 0 (readerContent rd2) := by rw [hrun2]
  rw [hfst1, hfst2, hsame]

/-- Witness for `claim_C4`: one-piece versus two-piece delivery of `[1, 2, 3]`. -/
theorem claim_C4_witness :
    (run cfg256 4 (initState 2048 [ReadEvent.give [1, 2, 3]])).1.map
        (fun ch => (ch.Offset, ch.Length, ch.Fingerprint)) =
      (run cfg256 4 (initState 2048 [ReadEvent.give [1], ReadEvent.give [2, 3]])).1.map
        (fun ch => (ch.Offset, ch.Length, ch.Fingerprint)) :=
  claim_C4 256 [] cfg256 2048 [ReadEvent.give [1, 2, 3]]
    [ReadEvent.give [1], ReadEvent.give [2, 3]] 4 rfl rfl rfl (by decide) (by decide)

/-- Claim C5: for every accepted configuration and input stream, the chunk
sequence produced by successive `Next` calls starts at offset 0 and each next
chunk's offset is the previous chunk's offset plus its length — offsets are
contiguous and non-overlapping. -/
theorem claim_C5 (averageSize : Int) (opts : List (options → options))
    (cfg : Chunker) (bufSize : Nat) (rd : Reader) (fuel : Nat) (d : Chunk)
    (hok : newChunker averageSize opts = Except.ok (cfg, bufSize))
    (hnf : noFail rd = true)
    (hfuel : (readerContent rd).length < fuel) :
    ((run cfg fuel (initState bufSize rd)).1 ≠ [] →
      ((run cfg fuel (initState bufSize rd)).1.getD 0 d).Offset = 0) ∧
    (∀ i, i + 1 < (run cfg fuel (initState bufSize rd)).1.length →
      ((run cfg fuel (initState bufSize rd)).1.getD (i + 1) d).Offset =
        ((run cfg fuel (initState bufSize rd)).1.getD i d).Offset +
          ((run cfg fuel (initState bufSize rd)).1.getD i d).Length) := by
  obtain ⟨hG, hbs, hnorm, hmin⟩ := newChunker_shape averageSize opts cfg bufSize hok
  have hI := initState_inv cfg bufSize rd hbs hnf
  have hrun := run_eq_chunksOf cfg hG fuel (initState bufSize rd) (readerContent rd) hI hfuel
  have hsp0 : (initState bufSize rd).streamPos = 0 := rfl
  rw [hsp0] at hrun
  have hfst : (run cfg fuel (initState bufSize rd)).1
      = chunksOf cfg fuel 0 (readerContent rd) := by rw [hrun]
  have hch := chunksOf_chained cfg fuel 0 (readerContent rd)
  constructor
  · intro hne
    rw [hfst] at hne ⊢
    rcases hcs : chunksOf cfg fuel 0 (readerContent rd) with _ | ⟨ch, rest⟩
    · exact absurd hcs hne
    · rw [hcs] at hch
      simp only [List.getD_cons_zero]
      exact hch.1
  · simp only [hfst]
    exact chained_getD d (chunksOf cfg fuel 0 (readerContent rd)) 0 hch

/-- Witness for `claim_C5` at the default chunker over a three-byte stream. -/
theorem claim_C5_witness :
    ((run cfg256 4 (initState 2048 [ReadEvent.give [1, 2, 3]])).1 ≠ [] →
      ((run cfg256 4 (initState 2048 [ReadEvent.give [1, 2, 3]])).1.getD 0
        ⟨0, 0, [], 0⟩).Offset = 0) ∧
    (∀ i, i + 1 < (run cfg256 4 (initState 2048 [ReadEvent.give [1, 2, 3]])).1.length →
      ((run cfg256 4 (initState 2048 [ReadEvent.give [1, 2, 3]])).1.getD (i + 1)
          ⟨0, 0, [], 0⟩).Offset =
        ((run cfg256 4 (initState 2048 [ReadEvent.give [1, 2, 3]])).1.getD i
            ⟨0, 0, [], 0⟩).Offset +
          ((run cfg256 4 (initState 2048 [ReadEvent.give [1, 2, 3]])).1.getD i
            ⟨0, 0, [], 0⟩).Length) :=
  claim_C5 256 [] cfg256 2048 [ReadEvent.give [1, 2, 3]] 4 ⟨0, 0, [], 0⟩ rfl rfl
    (by decide)

/-- Claim C6: a byte region of length at most `minSize` is returned whole by
the cut-point finder with fingerprint exactly 0; and an input stream shorter
than `minSize` yields exactly one chunk spanning the whole input with
fingerprint 0, after which the stream ends. -/
theorem claim_C6 (averageSize : Int) (opts : List (options → options))
    (cfg : Chunker) (bufSize : Nat) (rd : Reader) (fuel : Nat) (data : List Nat)
    (hok : newChunker averageSize opts = Except.ok (cfg, bufSize))
    (hdata : data.length ≤ cfg.minSize)
    (hnf : noFail rd = true)
    (hne : readerContent rd ≠ [])
    (hshort : (readerContent rd).length < cfg.minSize)
    (hfuel : (readerContent rd).length < fuel) :
    cut cfg data = (data.length, 0) ∧
    run cfg fuel (initState bufSize rd) =
      ([{ Offset := 0, Length := (readerContent rd).length,
          Data := readerContent rd, Fingerprint := 0 }], RunEnd.eof) := by
  obtain ⟨hG, hbs, hnorm, hmin⟩ := newChunker_shape averageSize opts cfg bufSize hok
  refine ⟨by rw [cut, if_pos hdata], ?_⟩
  rcases fuel with _ | f
  · omega
  · have hI := initState_inv cfg bufSize rd hbs hnf
    have hrun := run_eq_chunksOf cfg hG (f + 1) (initState bufSize rd)
      (readerContent rd) hI hfuel
    have hsp0 : (initState bufSize rd).streamPos = 0 := rfl
    rw [hsp0] at hrun
    rw [hrun, chunksOf_short cfg f 0 (readerContent rd) hne (Nat.le_of_lt hshort)]

/-- Witness for `claim_C6`: a two-byte region and a one-byte stream under the
default chunker (`minSize = 64`). -/
theorem claim_C6_witness :
    cut cfg256 [7, 7] = ([7, 7].length, 0) ∧
    run cfg256 2 (initState 2048 [ReadEvent.give [5]]) =
      ([{ Offset := 0, Length := (readerContent [ReadEvent.give [5]]).length,
          Data := readerContent [ReadEvent.give [5]], Fingerprint := 0 }],
        RunEnd.eof) :=
  claim_C6 256 [] cfg256 2048 [ReadEvent.give [5]] 2 [7, 7] rfl (by decide) rfl
    (by decide) (by decide) (by decide)

/-- Claim C8: a read failure of the source other than end-of-stream is
returned by `Next` verbatim (the same error code, no chunk), immediately,
without another read of the source; a source that never fails can never make
a run end in an error — it ends in the distinct end-of-stream sentinel, so
clean completion and operational failure are never conflated. -/
theorem claim_C8 (c : Chunker) (st : ChunkerState) (k : Nat) (rest : Reader)
    (averageSize : Int) (opts : List (options → options))
    (cfg : Chunker) (bufSize : Nat) (rd : Reader) (fuel : Nat)
    (hr : st.reader = ReadEvent.fail k :: rest) (hE : st.readerEOF = false)
    (hA : st.bufEnd - st.bufCursor < c.maxSize) (hbl : c.maxSize < st.buf.length)
    (hok : newChunker averageSize opts = Except.ok (cfg, bufSize))
    (hnf : noFail rd = true)
    (hfuel : (readerContent rd).length < fuel) :
    (∃ st2, next c st = (NextResult.err k, st2) ∧ st2.reader = rest) ∧
    (run cfg fuel (initState bufSize rd)).2 = RunEnd.eof ∧
    ∀ code, (run cfg fuel (initState bufSize rd)).2 ≠ RunEnd.err code := by
  obtain ⟨hG, hbs, hnorm, hmin⟩ := newChunker_shape averageSize opts cfg bufSize hok
  have hI := initState_inv cfg bufSize rd hbs hnf
  have hrun := run_eq_chunksOf cfg hG fuel (initState bufSize rd) (readerContent rd) hI hfuel
  have hsnd : (run cfg fuel (initState bufSize rd)).2 = RunEnd.eof := by rw [hrun]
  have hnf2 : noFail (initState bufSize rd).reader = true := hnf
  exact ⟨next_fail_head c st k rest hr hE hA hbl, hsnd,
    run_noFail_no_err cfg fuel (initState bufSize rd) hnf2⟩

/-- Witness for `claim_C8`: a source failing with code 7 on its first read,
and a clean three-byte source. -/
theorem claim_C8_witness :
    (∃ st2, next cfg256 (initState 2048 [ReadEvent.fail 7]) =
        (NextResult.err 7, st2) ∧ st2.reader = []) ∧
    (run cfg256 4 (initState 2048 [ReadEvent.give [1, 2, 3]])).2 = RunEnd.eof ∧
    ∀ code, (run cfg256 4 (initState 2048 [ReadEvent.give [1, 2, 3]])).2 ≠
      RunEnd.err code :=
  claim_C8 cfg256 (initState 2048 [ReadEvent.fail 7]) 7 [] 256 [] cfg256 2048
    [ReadEvent.give [1, 2, 3]] 4 rfl rfl (by decide)
    (by
      show cfg256.maxSize < (List.replicate 2048 (0 : Nat)).length
      rw [List.length_replicate]
      decide) rfl rfl (by decide)

/-- Claim C9: from any prior state (mid-stream, exhausted, stale buffer
contents), `Reset` with a source delivering some content followed by `Next`
calls to exhaustion produces exactly the same result as a freshly constructed
chunker of the same configuration reading the same content (under any read
partitioning of it). -/
theorem claim_C9 (averageSize : Int) (opts : List (options → options))
    (cfg : Chunker) (bufSize : Nat) (st : ChunkerState) (rd rd2 : Reader) (fuel : Nat)
    (hok : newChunker averageSize opts = Except.ok (cfg, bufSize))
    (hbl : cfg.maxSize < st.buf.length)
    (hnf : noFail rd = true) (hnf2 : noFail rd2 = true)
    (hsame : readerContent rd = readerContent rd2)
    (hfuel : (readerContent rd).length < fuel) :
    run cfg fuel (reset st rd) = run cfg fuel (initState bufSize rd2) := by
  obtain ⟨hG, hbs, hnorm, hmin⟩ := newChunker_shape averageSize opts cfg bufSize hok
  have hrun1 := run_eq_chunksOf cfg hG fuel (reset st rd) (readerContent rd)
    (reset_inv cfg st rd hbl hnf) hfuel
  have hrun2 := run_eq_chunksOf cfg hG fuel (initState bufSize rd2) (readerContent rd2)
    (initState_inv cfg bufSize rd2 hbs hnf2) (by rw [← hsame]; exact hfuel)
  have hsp1 : (reset st rd).streamPos = 0 := rfl
  have hsp2 : (initState bufSize rd2).streamPos = 0 := rfl
  rw [hsp1] at hrun1
  rw [hsp2] at hrun2
  rw [hrun1, hrun2, hsame]

/-- Witness for `claim_C9`: resetting a stale mid-stream state onto a
two-piece source matches a fresh chunker on a one-piece source of the same
bytes. -/
theorem claim_C9_witness :
    run cfg256 4 (reset staleState [ReadEvent.give [1], ReadEvent.give [2, 3]]) =
      run cfg256 4 (initState 2048 [ReadEvent.give [1, 2, 3]]) :=
  claim_C9 256 [] cfg256 2048 staleState
    [ReadEvent.give [1], ReadEvent.give [2, 3]] [ReadEvent.give [1, 2, 3]] 4
    rfl
    (by
      show cfg256.maxSize < (List.replicate 2048 (9 : Nat)).length
      rw [List.length_replicate]
      decide) rfl rfl (by decide) (by decide)
